import Mathlib

/-!
# TrelloPOC `html_prototype.js`: field inspector, link extractor and HTML builder

A shallow embedding of the pure core of `src/TrelloPOCWorking/html_prototype.js`
(`getNestedValue`, `inspectFields`, `extractSharePointUrl`, `buildHtml`) together
with the properties the specification states about it.

Conventions of the embedding
* `Text` is a JavaScript string, given by its characters.  The text operations
  of the source that are modelled (search for the ASCII markers, slicing at the
  positions found, replacement of newlines, concatenation) give the same text
  on characters as on UTF-16 code units.
* `JVal` is a value as `JSON.parse` yields it, plus `undefined`, which arises
  from lookups.
* `buildHtml` reads fixed field names only, and reads them with `getProp`.  The
  general access `o[k]` of `getNestedValue` is `member`: it finds the own
  properties of mappings and sequences and takes everything else (members
  found on the prototype chain, properties of strings, numbers, booleans and
  of the runtime's own objects) from a parameter, the `Runtime`.
* An operation that throws in the source returns `none`.  Resource limits of the
  runtime (stack depth, memory) are not modelled.
-/

set_option autoImplicit false
set_option maxRecDepth 100000

namespace TrelloPOC

/-- A JavaScript string. -/
abbrev Text := List Char

/-- A JSON number, carried as the two observations the program makes of it:
whether it is falsy (zero), and the text its string conversion yields. -/
structure JNum where
  isZero : Bool
  text : Text
deriving DecidableEq, Repr

/-- A value of the records handed to the core.  An object is the list of its own
enumerable properties in enumeration order; the first pair of a key is the one
the object holds. -/
inductive JVal where
  | undefined : JVal
  | null : JVal
  | bool (b : Bool) : JVal
  | num (n : JNum) : JVal
  | str (s : Text) : JVal
  | arr (xs : List JVal) : JVal
  | obj (ps : List (Text × JVal)) : JVal

namespace JVal

/-- Is the value `undefined`: the test `v === undefined`. -/
def isUndefined : JVal → Bool
  | undefined => true
  | _ => false

/-- Is the value `null` or `undefined`: what `??` and `?.` test. -/
def nullish : JVal → Bool
  | undefined => true
  | null => true
  | _ => false

/-- JavaScript truthiness (`ToBoolean`). -/
def truthy : JVal → Bool
  | undefined => false
  | null => false
  | bool b => b
  | num n => !n.isZero
  | str s => !s.isEmpty
  | arr _ => true
  | obj _ => true

/-- Strict equality with a string literal: `v === 'lit'`. -/
def isStr (v : JVal) (lit : Text) : Bool :=
  match v with
  | str s => s == lit
  | _ => false

/-- Strict equality with `true`: `v === true`. -/
def isTrue : JVal → Bool
  | bool b => b
  | _ => false

end JVal

open JVal

/-- Decimal text of a natural number: string conversion of a length or index. -/
def decimal (n : Nat) : Text := Nat.toDigits 10 n

/-- The number value of a length. -/
def lengthValue (n : Nat) : JVal := JVal.num ⟨n == 0, decimal n⟩

/-- The index below `n` whose canonical decimal text is `k`, if any. -/
def indexKey (n : Nat) (k : Text) : Option Nat :=
  (List.range n).find? (fun i => decimal i == k)

/-- The own property stored under `k` in a property list, if there is one. -/
def ownProp (k : Text) : List (Text × JVal) → Option JVal
  | [] => none
  | p :: ps => if p.1 = k then some p.2 else ownProp k ps

/-- First value stored under `k` in a property list, `undefined` when there is none. -/
def lookup (k : Text) : List (Text × JVal) → JVal
  | [] => JVal.undefined
  | (k', v) :: ps => if k' = k then v else lookup k ps

/-- Property access `o.f` for the field names that `buildHtml` reads (`author`,
`name`, `created`, `createdAt`, `content`, `text`, `items`, `status`, `checked`,
`state`, `title`, `description`, `endDates`, `actual`).  None of these names is
an element index or `length`, nor a member of a prototype object of the
runtime, so the access yields the own entry of a mapping and `undefined` on
every other value.  On `null` and `undefined`, where the source would throw,
it is `undefined`; every use below is guarded against that case. -/
def getProp (o : JVal) (k : Text) : JVal :=
  match o with
  | JVal.obj ps => lookup k ps
  | _ => JVal.undefined

/-- Optional chaining `o?.k`. -/
def optGet (o : JVal) (k : Text) : JVal :=
  if o.nullish then JVal.undefined else getProp o k

/-- Nullish coalescing `a ?? b`. -/
def coalesce (a b : JVal) : JVal :=
  if a.nullish then b else a

/-! ## String conversion in template literals -/

mutual
/-- String conversion `ToString(v)` as a template literal applies it.  An object converts through
`Object.prototype.toString` unless it has an own `toString` entry, which coming
from JSON is not callable and makes the conversion throw. -/
def toStr : JVal → Option Text
  | JVal.undefined => some "undefined".toList
  | JVal.null => some "null".toList
  | JVal.bool b => some (if b then "true".toList else "false".toList)
  | JVal.num n => some n.text
  | JVal.str s => some s
  | JVal.arr xs => joinComma xs
  | JVal.obj ps =>
      if ps.any (fun p => p.1 == "toString".toList) then none
      else some "[object Object]".toList
termination_by structural v => v
/-- The join `Array.prototype.join(',')`: `null` and `undefined` elements give empty text. -/
def joinComma : List JVal → Option Text
  | [] => some []
  | x :: xs =>
      match (if x.nullish then some [] else toStr x), joinComma xs with
      | some a, some b => some (if xs.isEmpty then a else a ++ ',' :: b)
      | _, _ => none
termination_by structural xs => xs
end

/-! ## `getNestedValue` and `inspectFields` -/

/-- A value met while a path is walked: a JSON value, or an object of the
runtime (a built-in function or prototype object), named by an identifier. -/
inductive PVal where
  | json (v : JVal) : PVal
  | native (id : Text) : PVal

namespace PVal

/-- The test `v === undefined`. -/
def isUndefined : PVal → Bool
  | json v => v.isUndefined
  | native _ => false

/-- JavaScript truthiness: every object of the runtime is truthy. -/
def truthy : PVal → Bool
  | json v => v.truthy
  | native _ => true

end PVal

/-- The runtime's part of property access, which the repository does not
contain.  For a value `o` that is neither `null` nor `undefined` and a key `k`
that is not an own property of a mapping or sequence `o`, `rt o k` is what
`o[k]` yields: a member found on the prototype chain, a property of a string,
number or boolean, or a property of a runtime object; `undefined` when there is
none, and `none` when reading it throws. -/
abbrev Runtime := PVal → Text → Option PVal

/-- Property access `o[k]`: own properties of mappings and sequences first, the
runtime for everything else.  On `null` and `undefined` the access throws. -/
def member (rt : Runtime) (o : PVal) (k : Text) : Option PVal :=
  match o with
  | PVal.json JVal.undefined => none
  | PVal.json JVal.null => none
  | PVal.json (JVal.obj ps) =>
      match ownProp k ps with
      | some v => some (PVal.json v)
      | none => rt o k
  | PVal.json (JVal.arr xs) =>
      if k = "length".toList then some (PVal.json (lengthValue xs.length))
      else match indexKey xs.length k with
        | some i => some (PVal.json (xs.getD i JVal.undefined))
        | none => rt o k
  | _ => rt o k

/-- The split `dotPath.split('.')`. -/
def splitDot : Text → List Text
  | [] => [[]]
  | c :: cs =>
      if c = '.' then [] :: splitDot cs
      else match splitDot cs with
        | [] => [[c]]
        | seg :: rest => (c :: seg) :: rest

/-- The reducer of `getNestedValue`:
`(o, k) => (o && o[k] !== undefined ? o[k] : undefined)`. -/
def nestedStep (rt : Runtime) (o : PVal) (k : Text) : Option PVal :=
  if o.truthy then
    match member rt o k with
    | none => none
    | some v => if !v.isUndefined then member rt o k else some (PVal.json JVal.undefined)
  else some (PVal.json JVal.undefined)

/-- The function `getNestedValue(obj, dotPath)`. -/
def getNestedValue (rt : Runtime) (obj : JVal) (dotPath : Text) : Option PVal :=
  (splitDot dotPath).foldlM (nestedStep rt) (PVal.json obj)

/-- Length of a string in UTF-16 code units. -/
def utf16Length (s : Text) : Nat :=
  (s.map (fun c => if c.toNat < 65536 then 1 else 2)).sum

/-- The call `Object.keys(v)`; it throws on `null` and `undefined`. -/
def objectKeys : JVal → Option (List Text)
  | JVal.undefined => none
  | JVal.null => none
  | JVal.obj ps => some (ps.map Prod.fst).eraseDups
  | JVal.arr xs => some ((List.range xs.length).map decimal)
  | JVal.str s => some ((List.range (utf16Length s)).map decimal)
  | _ => some []

/-- The line `inspectFields` logs for one expected field, `none` when the
lookup throws.  `stringify v` is the text the template shows for
`JSON.stringify(v)`, a function of the runtime. -/
def fieldLine (rt : Runtime) (stringify : PVal → Text) (first : JVal) (f : Text) :
    Option Text :=
  match getNestedValue rt first f with
  | none => none
  | some v =>
      let found := !v.isUndefined
      some ("  ".toList ++ (if found then "[OK]".toList else "[MISSING]".toList)
        ++ " ".toList ++ f
        ++ (if found then " = ".toList ++ stringify v
            else " -- UPDATE FIELD NAME IN EXPRESSIONS".toList))

/-- What a run of `inspectFields` emits: the logged lines, one per
`console.log` call, and whether the run ended by throwing. -/
structure Report where
  lines : List Text
  raised : Bool

/-- The lines logged by a loop whose steps each log one line or throw: the
lines up to the first step that throws, and whether one did. -/
def logUntilRaise : List (Option Text) → Report
  | [] => ⟨[], false⟩
  | none :: _ => ⟨[], true⟩
  | some l :: rest => ⟨l :: (logUntilRaise rest).lines, (logUntilRaise rest).raised⟩

/-- The function `inspectFields(label, data, expectedFields)`. -/
def inspectFields (rt : Runtime) (stringify : PVal → Text) (label : Text) (data : JVal)
    (expectedFields : List Text) : Report :=
  let header := "\n── ".toList ++ label ++ " field report ──".toList
  match data with
  | JVal.arr (first :: _) =>
      match objectKeys first with
      | none => ⟨[header], true⟩
      | some actual =>
          let loop := logUntilRaise (expectedFields.map (fieldLine rt stringify first))
          ⟨header :: ("  Actual top-level fields: ".toList ++ ", ".toList.intercalate actual)
            :: loop.lines, loop.raised⟩
  | _ => ⟨[header, "  (empty array — no field names to inspect)".toList], false⟩

/-- A runtime for the examples.  It supplies three members, as the standard
runtime does: a mapping inherits `constructor`, the function `Object`, from
`Object.prototype`; the name of that function is `Object`; and reading its
`caller` reaches the accessor of `Function.prototype`, whose getter throws a
`TypeError`.  It supplies no other member. -/
def exampleRuntime : Runtime := fun o k =>
  match o with
  | PVal.json (JVal.obj _) =>
      if k = "constructor".toList then some (PVal.native "Object".toList)
      else some (PVal.json JVal.undefined)
  | PVal.native id =>
      if id = "Object".toList ∧ k = "name".toList then
        some (PVal.json (JVal.str "Object".toList))
      else if id = "Object".toList ∧ k = "caller".toList then none
      else some (PVal.json JVal.undefined)
  | _ => some (PVal.json JVal.undefined)

/-- A serializer for the examples: `JSON.stringify` on `null` and on strings
without characters to escape. -/
def exampleStringify : PVal → Text
  | PVal.json (JVal.str s) => "\"".toList ++ s ++ "\"".toList
  | PVal.json JVal.null => "null".toList
  | _ => "undefined".toList

/-! ## `extractSharePointUrl` -/

/-- Scan of `String.prototype.indexOf`: offset `k` of the first position at or
after the current one where `pat` starts, `-1` when there is none. -/
def indexOfScan (pat : Text) : Text → Nat → Int
  | [], k => if pat.isPrefixOf [] then (k : Int) else -1
  | c :: cs, k => if pat.isPrefixOf (c :: cs) then (k : Int) else indexOfScan pat cs (k + 1)

/-- The call `s.indexOf(pat, position)`: the start position is clamped to `[0, s.length]`. -/
def indexOf (s pat : Text) (position : Int) : Int :=
  let start := min position.toNat s.length
  indexOfScan pat (s.drop start) start

/-- The call `s.substring(a, b)`: both ends are clamped to `[0, s.length]` and swapped
when out of order. -/
def substring (s : Text) (a b : Int) : Text :=
  let a' := min a.toNat s.length
  let b' := min b.toNat s.length
  (s.drop (min a' b')).take (max a' b' - min a' b')

/-- The sentinel `extractSharePointUrl` returns when a marker is missing. -/
def notFound : Text := "(no SharePoint URL found in description)".toList

/-- The function `extractSharePointUrl(description)` on a string. -/
def extractSharePointUrl (description : Text) : Text :=
  let startMarker := "](".toList
  let endMarker := " \"".toList
  let startIdx := indexOf description startMarker 0
  let endIdx := indexOf description endMarker startIdx
  if startIdx = -1 ∨ endIdx = -1 then notFound
  else substring description (startIdx + 2) endIdx

/-! ## `buildHtml` -/

/-- The join `xs.join('')` on an array of strings. -/
def joinAll (xs : List Text) : Text := xs.foldr (fun x acc => x ++ acc) []

/-- The expression `c?.author?.name ?? '(unknown)'`. -/
def commentAuthor (c : JVal) : JVal :=
  coalesce (optGet (optGet c "author".toList) "name".toList) (JVal.str "(unknown)".toList)

/-- The expression `c?.created ?? c?.createdAt ?? ''`. -/
def commentStamp (c : JVal) : JVal :=
  coalesce (coalesce (optGet c "created".toList) (optGet c "createdAt".toList)) (JVal.str [])

/-- The expression `c?.content ?? c?.text ?? ''`. -/
def commentBody (c : JVal) : JVal :=
  coalesce (coalesce (optGet c "content".toList) (optGet c "text".toList)) (JVal.str [])

/-- The callback of `comments.map` in `buildHtml`: the markup of one comment. -/
def commentHtml (c : JVal) : Option Text := do
  let author ← toStr (commentAuthor c)
  let stamp ← toStr (commentStamp c)
  let body ← toStr (commentBody c)
  pure ("<p><strong>".toList ++ author ++ "</strong> — ".toList ++ stamp
    ++ "<br/>".toList ++ body ++ "</p>".toList)

/-- The value `commentsHtml`: `comments.map(...).join('')`. -/
def commentsMarkup (comments : List JVal) : Option Text :=
  (comments.mapM commentHtml).map joinAll

/-- The constant `done` computed for a checklist item. -/
def itemDone (item : JVal) : Bool :=
  (optGet item "status".toList).isStr "complete".toList
    || (optGet item "checked".toList).isTrue
    || (optGet item "state".toList).isStr "complete".toList

/-- The expression `item?.title ?? item?.name ?? ''`. -/
def itemLabel (item : JVal) : JVal :=
  coalesce (coalesce (optGet item "title".toList) (optGet item "name".toList)) (JVal.str [])

/-- The callback of the inner `map`: the markup of one checklist item. -/
def itemHtml (item : JVal) : Option Text := do
  let label ← toStr (itemLabel item)
  pure ("<p>".toList ++ (if itemDone item then "&#10003;".toList else "&#9744;".toList)
    ++ " ".toList ++ label ++ "</p>".toList)

/-- The markup of a sequence of items: `items.map(...).join('')`. -/
def itemsJoin (items : List JVal) : Option Text :=
  (items.mapM itemHtml).map joinAll

/-- The value `itemsHtml`: `(cl?.items ?? []).map(...).join('')`.  A value that
is not an array has no callable `map`, and the call throws. -/
def itemsMarkup (cl : JVal) : Option Text :=
  match coalesce (optGet cl "items".toList) (JVal.arr []) with
  | JVal.arr items => itemsJoin items
  | _ => none

/-- The expression `cl?.title ?? cl?.name ?? ''`. -/
def checklistHeading (cl : JVal) : JVal :=
  coalesce (coalesce (optGet cl "title".toList) (optGet cl "name".toList)) (JVal.str [])

/-- The callback of `checklists.map`: the markup of one checklist. -/
def checklistHtml (cl : JVal) : Option Text := do
  let itemsHtml ← itemsMarkup cl
  let heading ← toStr (checklistHeading cl)
  pure ("<h3>".toList ++ heading ++ "</h3>".toList ++ itemsHtml)

/-- The value `checklistsHtml`: `checklists.map(...).join('')`. -/
def checklistsMarkup (checklists : List JVal) : Option Text :=
  (checklists.mapM checklistHtml).map joinAll

/-- The call `s.replace(/\n/g, '<br/>')`. -/
def replaceNewlines : Text → Text
  | [] => []
  | c :: cs => if c = '\n' then "<br/>".toList ++ replaceNewlines cs else c :: replaceNewlines cs

/-- The expression `a || b` on strings: the empty string is the only falsy one. -/
def orText (a b : Text) : Text := if a.isEmpty then b else a

/-- The template's fixed text up to the title. -/
def pageHead : Text := String.toList (
  "<!DOCTYPE html>\n<html>\n<head>\n  <meta charset=\"UTF-8\"/>\n  <style>\n"
  ++ "    body \x7b font-family: Arial, sans-serif; max-width: 800px; margin: 40px auto; color: #222; \x7d\n"
  ++ "    h1 \x7b color: #1a3a5c; \x7d\n"
  ++ "    h2 \x7b border-bottom: 1px solid #ccc; padding-bottom: 4px; margin-top: 32px; \x7d\n"
  ++ "    h3 \x7b color: #444; margin-bottom: 4px; \x7d\n"
  ++ "    p  \x7b margin: 6px 0; \x7d\n"
  ++ "    hr \x7b border: 0; border-top: 2px solid #1a3a5c; \x7d\n"
  ++ "    .meta \x7b background: #f0f4f8; padding: 12px; border-radius: 4px; \x7d\n"
  ++ "    .sp-link \x7b font-size: 0.85em; color: #555; \x7d\n"
  ++ "  </style>\n</head>\n<body>\n  <h1>")

/-- The placeholder shown when `commentsHtml` is empty. -/
def noComments : Text := "<p><em>No comments.</em></p>".toList

/-- The placeholder shown when `checklistsHtml` is empty. -/
def noChecklists : Text := "<p><em>No checklists.</em></p>".toList

/-- The template's comments section: header with the count, then the markup or
the placeholder. -/
def commentsSection (count : Nat) (commentsHtml : Text) : Text :=
  "<h2>Comments (".toList ++ decimal count ++ ")</h2>\n  ".toList
    ++ orText commentsHtml noComments

/-- The template's checklists section. -/
def checklistsSection (count : Nat) (checklistsHtml : Text) : Text :=
  "<h2>Checklists (".toList ++ decimal count ++ ")</h2>\n  ".toList
    ++ orText checklistsHtml noChecklists

/-- The template's text from the title to the end of the description block. -/
def pageTop (title status completed spUrl description : Text) : Text :=
  pageHead ++ title ++ "</h1>\n  <hr/>\n  <div class=\"meta\">\n    <p><strong>Status:</strong> ".toList
    ++ status ++ "</p>\n    <p><strong>Completed:</strong> ".toList ++ completed
    ++ "</p>\n    <p class=\"sp-link\"><strong>SharePoint folder:</strong> <a href=\"".toList
    ++ spUrl ++ "\">".toList ++ spUrl ++ "</a></p>\n  </div>\n\n  <h2>Description</h2>\n  <p>".toList
    ++ replaceNewlines description ++ "</p>\n\n  ".toList

/-- The function `buildHtml(card, comments, checklists)`.  `card.description` throws on a
`null` or `undefined` card; a description that is neither nullish nor a string
has no callable `indexOf`, `substring` or `replace`, and the call throws. -/
def buildHtml (card : JVal) (comments checklists : List JVal) : Option Text := do
  let commentsHtml ← commentsMarkup comments
  let checklistsHtml ← checklistsMarkup checklists
  if card.nullish then none
  else match coalesce (getProp card "description".toList) (JVal.str []) with
    | JVal.str description =>
        let spUrl := extractSharePointUrl description
        let title ← toStr (coalesce (getProp card "title".toList) (JVal.str []))
        let status ← toStr (coalesce (getProp card "status".toList) (JVal.str []))
        let completed ← toStr (coalesce
          (optGet (getProp card "endDates".toList) "actual".toList) (JVal.str []))
        pure (pageTop title status completed spUrl description
          ++ commentsSection comments.length commentsHtml ++ "\n\n  ".toList
          ++ checklistsSection checklists.length checklistsHtml
          ++ "\n</body>\n</html>".toList)
    | _ => none

/-! ## Specification-side notions -/

/-- Occurrence: `pat` occurs in `s` starting at offset `n`. -/
def OccursAt (pat s : Text) (n : Nat) : Prop := pat <+: s.drop n

instance (pat s : Text) (n : Nat) : Decidable (OccursAt pat s n) :=
  inferInstanceAs (Decidable (pat <+: s.drop n))

/-- The first occurrence of `pat` in `s` starts at offset `n`. -/
def FirstAt (pat s : Text) (n : Nat) : Prop :=
  OccursAt pat s n ∧ ∀ m, m < n → ¬ OccursAt pat s m

instance (pat s : Text) (n : Nat) : Decidable (FirstAt pat s n) :=
  inferInstanceAs (Decidable (_ ∧ _))

/-- Plain chained property access `o[k1][k2]...`: the value the path made of
`segs` holds in `o`, `none` when an access throws. -/
def held (rt : Runtime) (o : PVal) (segs : List Text) : Option PVal :=
  segs.foldlM (member rt) o

/-- The number a text denotes when read as a decimal numeral. -/
def numeralValue (t : Text) : Nat :=
  t.foldl (fun acc c => 10 * acc + (c.toNat - 48)) 0

/-- The text `t` is the decimal numeral of `n`: decimal digits only, no leading
zero except in the numeral `0` itself, and the value `n`. -/
def IsNumeral (t : Text) (n : Nat) : Prop :=
  t ≠ [] ∧ (∀ c ∈ t, c.isDigit = true) ∧ (t.head? = some '0' → t = ['0'])
    ∧ numeralValue t = n

mutual
/-- The value converts to text: it is not a mapping with an own `toString`
entry, nor a sequence one of whose elements does not convert. -/
def convertible : JVal → Bool
  | JVal.arr xs => convertibleAll xs
  | JVal.obj ps => (ownProp "toString".toList ps).isNone
  | _ => true
termination_by structural v => v
/-- Every element of the sequence converts to text. -/
def convertibleAll : List JVal → Bool
  | [] => true
  | x :: xs => convertible x && convertibleAll xs
termination_by structural xs => xs
end

/-- The field is missing, `null`, or text. -/
def textOrAbsent (v : JVal) : Bool :=
  match v with
  | JVal.undefined => true
  | JVal.null => true
  | JVal.str _ => true
  | _ => false

/-- The field is missing, `null`, or a sequence. -/
def arrayOrAbsent (v : JVal) : Bool :=
  match v with
  | JVal.undefined => true
  | JVal.null => true
  | JVal.arr _ => true
  | _ => false

/-- The items of a checklist record: the elements of its `items` field when that
is a sequence, none otherwise. -/
def itemsOf (cl : JVal) : List JVal :=
  match optGet cl "items".toList with
  | JVal.arr items => items
  | _ => []

/-! ## `extractSharePointUrl`: claims C1 and C2 -/

theorem indexOfScan_found (pat : Text) :
    ∀ (n : Nat) (s : Text) (k : Nat), pat <+: s.drop n →
      (∀ m, m < n → ¬ pat <+: s.drop m) → indexOfScan pat s k = ((k + n : Nat) : Int) := by
  intro n
  induction n with
  | zero =>
      intro s k h _
      have hp : pat.isPrefixOf s = true := List.isPrefixOf_iff_prefix.mpr (by simpa using h)
      cases s <;> simp [indexOfScan, hp]
  | succ n ih =>
      intro s k h hno
      have h0 : ¬ pat <+: s := by simpa using hno 0 (Nat.succ_pos n)
      have hp : pat.isPrefixOf s = false := by
        cases hq : pat.isPrefixOf s
        · rfl
        · exact absurd (List.isPrefixOf_iff_prefix.mp hq) h0
      cases s with
      | nil =>
          exfalso
          apply h0
          simpa using h
      | cons c cs =>
          have hrec := ih cs (k + 1) (by simpa using h) (fun m hm hpm =>
            hno (m + 1) (Nat.succ_lt_succ hm) (by simpa using hpm))
          simp only [indexOfScan, hp, Bool.false_eq_true, if_false, hrec]
          congr 1
          omega

theorem indexOfScan_none (pat : Text) :
    ∀ (s : Text) (k : Nat), (∀ m, ¬ pat <+: s.drop m) → indexOfScan pat s k = -1 := by
  intro s
  induction s with
  | nil =>
      intro k h
      have h0 : ¬ pat <+: [] := by simpa using h 0
      have hp : pat.isPrefixOf [] = false := by
        cases hq : pat.isPrefixOf ([] : Text)
        · rfl
        · exact absurd (List.isPrefixOf_iff_prefix.mp hq) h0
      simp [indexOfScan, hp]
  | cons c cs ih =>
      intro k h
      have h0 : ¬ pat <+: c :: cs := by simpa using h 0
      have hp : pat.isPrefixOf (c :: cs) = false := by
        cases hq : pat.isPrefixOf (c :: cs)
        · rfl
        · exact absurd (List.isPrefixOf_iff_prefix.mp hq) h0
      have hrec := ih (k + 1) (fun m hpm => h (m + 1) (by simpa using hpm))
      simp only [indexOfScan, hp, Bool.false_eq_true, if_false, hrec]

theorem occursAt_lt_length {pat s : Text} {n : Nat} (hpat : pat ≠ [])
    (h : OccursAt pat s n) : n < s.length := by
  by_contra hn
  have : s.drop n = [] := List.drop_eq_nil_of_le (by omega)
  rw [OccursAt, this] at h
  exact hpat (List.prefix_nil.mp h)

theorem indexOf_found {pat s : Text} {p j : Nat} (hpat : pat ≠ []) (hpj : p ≤ j)
    (hj : OccursAt pat s j) (hno : ∀ m, p ≤ m → m < j → ¬ OccursAt pat s m) :
    indexOf s pat (p : Int) = (j : Int) := by
  have hlen := occursAt_lt_length hpat hj
  have hstart : min (p : Int).toNat s.length = p := by simp; omega
  unfold indexOf
  simp only [hstart]
  rw [indexOfScan_found pat (j - p) (s.drop p) p]
  · congr 1; omega
  · rw [List.drop_drop]
    have : p + (j - p) = j := by omega
    simpa [this, Nat.add_comm] using hj
  · intro m hm hpm
    rw [List.drop_drop] at hpm
    apply hno (p + m) (by omega) (by omega)
    simpa [OccursAt, Nat.add_comm] using hpm

theorem indexOf_none {pat s : Text} {p : Nat} (hpat : pat ≠ [])
    (hno : ∀ m, p ≤ m → ¬ OccursAt pat s m) : indexOf s pat (p : Int) = -1 := by
  unfold indexOf
  apply indexOfScan_none
  intro m hpm
  rw [List.drop_drop] at hpm
  have hocc : OccursAt pat s (min (p : Int).toNat s.length + m) := by
    simpa [OccursAt, Nat.add_comm] using hpm
  have hlt := occursAt_lt_length hpat hocc
  have hmin : min (p : Int).toNat s.length = p := by
    simp
    simp at hlt
    omega
  rw [hmin] at hocc
  exact hno _ (by omega) hocc

theorem occursAt_of_infix {pat s : Text} (h : pat <:+: s) : ∃ m, OccursAt pat s m := by
  obtain ⟨a, b, rfl⟩ := h
  refine ⟨a.length, ?_⟩
  simp [OccursAt, List.append_assoc]

theorem infix_of_occursAt {pat s : Text} {m : Nat} (h : OccursAt pat s m) : pat <:+: s :=
  List.IsInfix.trans h.isInfix (List.drop_suffix m s).isInfix

theorem endMarker_not_at_start {s : Text} {i m : Nat} (hs : OccursAt "](".toList s i)
    (him : i ≤ m) (hm : m < i + 2) : ¬ OccursAt " \"".toList s m := by
  intro he
  obtain ⟨r, hr⟩ := hs
  have hr' : s.drop i = ']' :: '(' :: r := by simpa using hr.symm
  obtain ⟨q, hq⟩ := he
  have hq' : s.drop m = " \"".toList ++ q := hq.symm
  rcases Nat.lt_or_ge m (i + 1) with h1 | h1
  · have : m = i := by omega
    subst this
    rw [hr'] at hq'
    simp at hq'
  · have : m = i + 1 := by omega
    subst this
    have : s.drop (i + 1) = '(' :: r := by
      rw [← List.drop_drop, hr']  
      rfl
    rw [this] at hq'
    simp at hq'

/-- C1: when `](` occurs in the text, first at offset `i`, and the first
space-quote pair after it starts at offset `j`, `extractSharePointUrl` returns
exactly the characters from offset `i + 2` up to offset `j`, unchanged; later
`](` occurrences play no role.  For the text
`see [here](https://example.com/a "title")` the result is `https://example.com/a`. -/
theorem extractSharePointUrl_between :
    (∀ (text : Text) (i j : Nat), FirstAt "](".toList text i → i + 2 ≤ j →
        OccursAt " \"".toList text j →
        (∀ m, i + 2 ≤ m → m < j → ¬ OccursAt " \"".toList text m) →
        extractSharePointUrl text = (text.drop (i + 2)).take (j - (i + 2)))
    ∧ extractSharePointUrl "see [here](https://example.com/a \"title\")".toList
        = "https://example.com/a".toList := by
  refine ⟨?_, by decide⟩
  intro text i j hs hij he hfirst
  have hstart : indexOf text "](".toList 0 = (i : Int) :=
    indexOf_found (p := 0) (by decide) (Nat.zero_le i) hs.1 (fun m _ hm => hs.2 m hm)
  have hend : indexOf text " \"".toList (i : Int) = (j : Int) := by
    refine indexOf_found (by decide) (by omega) he ?_
    intro m him hmj
    rcases Nat.lt_or_ge m (i + 2) with h | h
    · exact endMarker_not_at_start hs.1 him h
    · exact hfirst m h hmj
  have hlen : j < text.length := occursAt_lt_length (by decide) he
  have hne : ¬ ((i : Int) = -1 ∨ (j : Int) = -1) := by omega
  have ha : min ((i : Int) + 2).toNat text.length = i + 2 := by
    have : ((i : Int) + 2).toNat = i + 2 := by omega
    rw [this]; omega
  have hb : min (j : Int).toNat text.length = j := by
    simp; omega
  simp only [extractSharePointUrl, hstart, hend, hne, if_false, substring, ha, hb]
  rw [Nat.min_eq_left hij, Nat.max_eq_right hij]

/-- Witness for C1: a text with two links; `](` first occurs at offset 2 and the
space-quote pair after it at offset 5, so the result is the single character
between them. -/
theorem extractSharePointUrl_between_witness :
    extractSharePointUrl "[a](u \"t\") [b](v \"w\")".toList = "u".toList :=
  extractSharePointUrl_between.1 "[a](u \"t\") [b](v \"w\")".toList 2 5
    (by decide) (by decide) (by decide) (by decide)

/-- C2: a text without `](`, or without a space-quote pair after its first `](`
(one before it does not count), yields the fixed sentinel; so does the empty
text, which is what a card without a description supplies. -/
theorem extractSharePointUrl_notFound :
    (∀ text : Text, ¬ "](".toList <:+: text → extractSharePointUrl text = notFound)
    ∧ (∀ (text : Text) (i : Nat), FirstAt "](".toList text i →
        ¬ " \"".toList <:+: text.drop (i + 2) → extractSharePointUrl text = notFound)
    ∧ extractSharePointUrl [] = notFound
    ∧ notFound = "(no SharePoint URL found in description)".toList := by
  refine ⟨?_, ?_, by decide, rfl⟩
  · intro text hno
    have hstart : indexOf text "](".toList 0 = -1 :=
      indexOf_none (p := 0) (by decide) (fun m _ hm => hno (infix_of_occursAt hm))
    simp only [extractSharePointUrl, hstart, true_or, if_true]
  · intro text i hs hno
    have hstart : indexOf text "](".toList 0 = (i : Int) :=
      indexOf_found (p := 0) (by decide) (Nat.zero_le i) hs.1 (fun m _ hm => hs.2 m hm)
    have hend : indexOf text " \"".toList (i : Int) = -1 := by
      refine indexOf_none (by decide) ?_
      intro m him hm
      rcases Nat.lt_or_ge m (i + 2) with h | h
      · exact endMarker_not_at_start hs.1 him h hm
      · apply hno
        have : OccursAt " \"".toList (text.drop (i + 2)) (m - (i + 2)) := by
          unfold OccursAt at hm ⊢
          rw [List.drop_drop]
          have e : i + 2 + (m - (i + 2)) = m := by omega
          rw [e]; exact hm
        exact infix_of_occursAt this
    simp only [extractSharePointUrl, hstart, hend, or_true, if_true]

/-- Witness for C2: a text without `](`, and a text whose only space-quote pair
stands before its first `](`. -/
theorem extractSharePointUrl_notFound_witness :
    extractSharePointUrl "plain \"quoted\" text".toList = notFound
    ∧ extractSharePointUrl "a \"b\" [c](http://x)".toList = notFound :=
  ⟨extractSharePointUrl_notFound.1 "plain \"quoted\" text".toList (by decide),
   extractSharePointUrl_notFound.2.1 "a \"b\" [c](http://x)".toList 8 (by decide) (by decide)⟩

/-! ## `getNestedValue` and `inspectFields`: claims C3 and C10 -/

theorem pval_isUndefined_iff (v : PVal) :
    v.isUndefined = true ↔ v = PVal.json JVal.undefined := by
  cases v with
  | native id => simp [PVal.isUndefined]
  | json w => cases w <;> simp [PVal.isUndefined, JVal.isUndefined]

theorem nestedStep_of_truthy (rt : Runtime) {o : PVal} (k : Text) (ht : o.truthy = true) :
    nestedStep rt o k = member rt o k := by
  unfold nestedStep
  rw [if_pos ht]
  cases hm : member rt o k with
  | none => rfl
  | some v =>
      cases hu : v.isUndefined with
      | false => simp [hu]
      | true =>
          have : v = PVal.json JVal.undefined := (pval_isUndefined_iff v).mp hu
          simp [this]

theorem nestedStep_of_falsy (rt : Runtime) {o : PVal} (k : Text) (ht : o.truthy = false) :
    nestedStep rt o k = some (PVal.json JVal.undefined) := by
  simp [nestedStep, ht]

theorem foldlM_nestedStep_undefined (rt : Runtime) (ks : List Text) :
    ks.foldlM (nestedStep rt) (PVal.json JVal.undefined) = some (PVal.json JVal.undefined) := by
  induction ks with
  | nil => rfl
  | cons k ks ih =>
      rw [List.foldlM_cons,
        nestedStep_of_falsy rt (o := PVal.json JVal.undefined) k rfl]
      exact ih

theorem held_cons (rt : Runtime) (o : PVal) (k : Text) (ks : List Text) :
    held rt o (k :: ks) = (member rt o k).bind (fun v => held rt v ks) := by
  unfold held
  rw [List.foldlM_cons]
  rfl

theorem held_single (rt : Runtime) (o : PVal) (k : Text) :
    held rt o [k] = member rt o k := by
  rw [held_cons]
  cases member rt o k <;> rfl

/-- Where the walk of `getNestedValue` ends in `undefined`: the start value is
falsy, or some segment is missing, or some segment before the last holds a
falsy value. -/
theorem foldlM_nestedStep_eq_undefined_iff (rt : Runtime) (segs : List Text) :
    ∀ o : PVal, segs.foldlM (nestedStep rt) o = some (PVal.json JVal.undefined) ↔
      ((segs = [] ∧ o = PVal.json JVal.undefined) ∨ (segs ≠ [] ∧ o.truthy = false)
        ∨ ∃ ks k rest v, segs = ks ++ k :: rest ∧ held rt o (ks ++ [k]) = some v
            ∧ (v = PVal.json JVal.undefined ∨ (rest ≠ [] ∧ v.truthy = false))) := by
  induction segs with
  | nil =>
      intro o
      constructor
      · intro h
        have : o = PVal.json JVal.undefined := by
          have h2 : some o = some (PVal.json JVal.undefined) := h
          exact Option.some.inj h2
        exact Or.inl ⟨rfl, this⟩
      · rintro (⟨_, h⟩ | ⟨h, _⟩ | ⟨ks, k, rest, v, h, _⟩)
        · rw [h]; rfl
        · exact absurd rfl h
        · exact absurd h (by simp)
  | cons k ks ih =>
      intro o
      rw [List.foldlM_cons]
      cases ht : o.truthy with
      | false =>
          rw [nestedStep_of_falsy rt k ht]
          simp only [Option.bind_eq_bind, Option.some_bind]
          rw [foldlM_nestedStep_undefined]
          refine ⟨fun _ => Or.inr (Or.inl ⟨List.cons_ne_nil _ _, trivial⟩), fun _ => rfl⟩
      | true =>
          rw [nestedStep_of_truthy rt k ht]
          cases hm : member rt o k with
          | none =>
              simp only [Option.bind_eq_bind, Option.none_bind]
              constructor
              · intro h; cases h
              · rintro (⟨h, _⟩ | ⟨_, h⟩ | ⟨ks1, k1, rest, v, hsplit, hheld, _⟩)
                · exact absurd h (List.cons_ne_nil _ _)
                · cases h
                · exfalso
                  cases ks1 with
                  | nil =>
                      simp only [List.nil_append, List.cons.injEq] at hsplit
                      obtain ⟨rfl, rfl⟩ := hsplit
                      rw [List.nil_append, held_single, hm] at hheld
                      cases hheld
                  | cons k0 ks2 =>
                      simp only [List.cons_append, List.cons.injEq] at hsplit
                      obtain ⟨rfl, rfl⟩ := hsplit
                      rw [List.cons_append, held_cons, hm] at hheld
                      cases hheld
          | some w =>
              simp only [Option.bind_eq_bind, Option.some_bind]
              rw [ih w]
              by_cases hw : w = PVal.json JVal.undefined
              · constructor
                · intro _
                  refine Or.inr (Or.inr ⟨[], k, ks, w, rfl, ?_, Or.inl hw⟩)
                  rw [List.nil_append, held_single, hm]
                · intro _
                  cases ks with
                  | nil => exact Or.inl ⟨rfl, hw⟩
                  | cons k2 ks3 =>
                      exact Or.inr (Or.inl ⟨List.cons_ne_nil _ _, by rw [hw]; rfl⟩)
              · constructor
                · rintro (⟨_, h⟩ | ⟨hne, hf⟩ | ⟨ks1, k1, rest, v, hsplit, hheld, hcase⟩)
                  · exact absurd h hw
                  · refine Or.inr (Or.inr ⟨[], k, ks, w, rfl, ?_, Or.inr ⟨hne, hf⟩⟩)
                    rw [List.nil_append, held_single, hm]
                  · refine Or.inr (Or.inr ⟨k :: ks1, k1, rest, v, by simp [hsplit], ?_, hcase⟩)
                    rw [List.cons_append, held_cons, hm]
                    exact hheld
                · rintro (⟨h, _⟩ | ⟨_, h⟩ | ⟨ks1, k1, rest, v, hsplit, hheld, hcase⟩)
                  · exact absurd h (List.cons_ne_nil _ _)
                  · cases h
                  · cases ks1 with
                    | nil =>
                        simp only [List.nil_append, List.cons.injEq] at hsplit
                        obtain ⟨rfl, rfl⟩ := hsplit
                        rw [List.nil_append, held_single, hm] at hheld
                        have hv : w = v := Option.some.inj hheld
                        subst hv
                        rcases hcase with h | ⟨hne, hf⟩
                        · exact absurd h hw
                        · exact Or.inr (Or.inl ⟨hne, hf⟩)
                    | cons k0 ks2 =>
                        simp only [List.cons_append, List.cons.injEq] at hsplit
                        obtain ⟨rfl, rfl⟩ := hsplit
                        rw [List.cons_append, held_cons, hm] at hheld
                        exact Or.inr (Or.inr ⟨ks2, k1, rest, v, rfl, hheld, hcase⟩)

theorem member_isSome (rt : Runtime) (hrt : ∀ o k, ∃ v, rt o k = some v) (o : PVal) (k : Text)
    (ht : o.truthy = true) : ∃ v, member rt o k = some v := by
  cases o with
  | native id => exact hrt _ _
  | json w =>
      cases w with
      | undefined => cases ht
      | null => cases ht
      | bool b => exact hrt _ _
      | num n => exact hrt _ _
      | str s => exact hrt _ _
      | arr xs =>
          unfold member
          simp only []
          split
          · exact ⟨_, rfl⟩
          · split
            · exact ⟨_, rfl⟩
            · exact hrt _ _
      | obj ps =>
          unfold member
          simp only []
          split
          · exact ⟨_, rfl⟩
          · exact hrt _ _

theorem foldlM_nestedStep_isSome (rt : Runtime) (hrt : ∀ o k, ∃ v, rt o k = some v)
    (segs : List Text) : ∀ o : PVal, ∃ v, segs.foldlM (nestedStep rt) o = some v := by
  induction segs with
  | nil => intro o; exact ⟨o, rfl⟩
  | cons k ks ih =>
      intro o
      rw [List.foldlM_cons]
      cases ht : o.truthy with
      | false =>
          rw [nestedStep_of_falsy rt k ht]
          exact ih _
      | true =>
          rw [nestedStep_of_truthy rt k ht]
          obtain ⟨w, hw⟩ := member_isSome rt hrt o k ht
          rw [hw]
          exact ih w

theorem splitDot_no_dot (k : Text) (h : '.' ∉ k) : splitDot k = [k] := by
  induction k with
  | nil => rfl
  | cons c cs ih =>
      have hc : c ≠ '.' := fun e => h (by simp [e])
      have hcs : '.' ∉ cs := fun e => h (List.mem_cons_of_mem _ e)
      simp [splitDot, hc, ih hcs]

theorem splitDot_ne_nil (p : Text) : splitDot p ≠ [] := by
  cases p with
  | nil => simp [splitDot]
  | cons c cs =>
      unfold splitDot
      split
      · simp
      · split <;> simp

theorem splitDot_segments (p : Text) : ∀ seg ∈ splitDot p, '.' ∉ seg := by
  induction p with
  | nil => simp [splitDot]
  | cons c cs ih =>
      unfold splitDot
      split
      · intro seg hseg
        rcases List.mem_cons.mp hseg with rfl | h
        · simp
        · exact ih seg h
      · rename_i hc
        cases hs : splitDot cs with
        | nil => exact absurd hs (splitDot_ne_nil cs)
        | cons s0 rest =>
            rw [hs] at ih
            intro seg hseg
            rcases List.mem_cons.mp hseg with rfl | h
            · intro hmem
              rcases List.mem_cons.mp hmem with e | e
              · exact hc e.symm
              · exact ih s0 (List.mem_cons_self _ _) e
            · exact ih seg (List.mem_cons_of_mem _ h)

theorem splitDot_intercalate (p : Text) : ".".toList.intercalate (splitDot p) = p := by
  induction p with
  | nil => rfl
  | cons c cs ih =>
      unfold splitDot
      split
      · rename_i hc
        cases hs : splitDot cs with
        | nil => exact absurd hs (splitDot_ne_nil cs)
        | cons s0 rest =>
            rw [hs] at ih
            rw [← ih, hc]
            rfl
      · cases hs : splitDot cs with
        | nil => exact absurd hs (splitDot_ne_nil cs)
        | cons s0 rest =>
            rw [hs] at ih
            rw [← ih]
            cases rest <;> rfl

/-- C3 (counterexample): in the record `{a: null}` the path `a` holds `null`, yet
`getNestedValue` returns `null`, not `undefined`, and `inspectFields` reports
the path as found.  And `getNestedValue` can raise: on the record `{}` the path
`constructor.caller` reads the `caller` accessor that the function `Object`
inherits from `Function.prototype`, whose getter throws a `TypeError`. -/
theorem getNestedValue_null_leaf_found :
    ownProp "a".toList [("a".toList, JVal.null)] = some JVal.null
    ∧ getNestedValue exampleRuntime (JVal.obj [("a".toList, JVal.null)]) "a".toList
        = some (PVal.json JVal.null)
    ∧ fieldLine exampleRuntime exampleStringify (JVal.obj [("a".toList, JVal.null)])
        "a".toList = some "  [OK] a = null".toList
    ∧ getNestedValue exampleRuntime (JVal.obj []) "constructor.caller".toList = none :=
  ⟨rfl, rfl, by decide, rfl⟩

/-- C3 (amended): on a record, `getNestedValue` returns `undefined` exactly when
some segment of the path is missing (the access yields `undefined`: neither an
own property nor a member supplied by the runtime) or some segment before the
last holds a falsy value (`null`, `false`, zero or the empty string).  A last
segment that holds `null` yields `null`.  It raises only if reading a member
that the runtime supplies raises.  The segments are the pieces of the path
between its dots, and an own property of a mapping takes precedence over the
runtime.  `inspectFields` reports a path as `[MISSING]` exactly when
`getNestedValue` returns `undefined`, and as `[OK]` with the value otherwise,
so an explicit `null` is reported as found. -/
theorem getNestedValue_undefined_iff :
    (∀ (rt : Runtime) (ps : List (Text × JVal)) (path : Text),
        getNestedValue rt (JVal.obj ps) path = some (PVal.json JVal.undefined) ↔
          ∃ ks k rest v, splitDot path = ks ++ k :: rest
            ∧ held rt (PVal.json (JVal.obj ps)) (ks ++ [k]) = some v
            ∧ (v = PVal.json JVal.undefined ∨ (rest ≠ [] ∧ v.truthy = false)))
    ∧ (∀ (rt : Runtime) (ps : List (Text × JVal)) (path : Text),
        (∀ o k, ∃ v, rt o k = some v) → ∃ v, getNestedValue rt (JVal.obj ps) path = some v)
    ∧ (∀ path : Text, splitDot path ≠ [] ∧ (∀ seg ∈ splitDot path, '.' ∉ seg)
        ∧ ".".toList.intercalate (splitDot path) = path)
    ∧ (∀ (rt : Runtime) (ps : List (Text × JVal)) (k : Text),
        (∀ v, ownProp k ps = some v →
          member rt (PVal.json (JVal.obj ps)) k = some (PVal.json v))
        ∧ (ownProp k ps = none →
          member rt (PVal.json (JVal.obj ps)) k = rt (PVal.json (JVal.obj ps)) k))
    ∧ (∀ v : PVal, v.truthy = false ↔
        (v = PVal.json JVal.undefined ∨ v = PVal.json JVal.null
          ∨ v = PVal.json (JVal.bool false)
          ∨ (∃ n, v = PVal.json (JVal.num n) ∧ n.isZero = true)
          ∨ v = PVal.json (JVal.str [])))
    ∧ (∀ (rt : Runtime) (ps : List (Text × JVal)) (k : Text), '.' ∉ k →
        ownProp k ps = some JVal.null →
        getNestedValue rt (JVal.obj ps) k = some (PVal.json JVal.null))
    ∧ (∀ (rt : Runtime) (stringify : PVal → Text) (first : JVal) (f : Text),
        (getNestedValue rt first f = none → fieldLine rt stringify first f = none)
        ∧ (getNestedValue rt first f = some (PVal.json JVal.undefined) →
          fieldLine rt stringify first f = some ("  [MISSING] ".toList ++ f
            ++ " -- UPDATE FIELD NAME IN EXPRESSIONS".toList))
        ∧ (∀ v, getNestedValue rt first f = some v → v ≠ PVal.json JVal.undefined →
          fieldLine rt stringify first f
            = some ("  [OK] ".toList ++ f ++ " = ".toList ++ stringify v))) := by
  refine ⟨?_, ?_, ?_, ?_, ?_, ?_, ?_⟩
  · intro rt ps path
    unfold getNestedValue
    rw [foldlM_nestedStep_eq_undefined_iff]
    constructor
    · rintro (⟨_, h⟩ | ⟨_, h⟩ | h)
      · cases h
      · cases h
      · exact h
    · intro h
      exact Or.inr (Or.inr h)
  · intro rt ps path hrt
    exact foldlM_nestedStep_isSome rt hrt _ _
  · intro path
    exact ⟨splitDot_ne_nil path, splitDot_segments path, splitDot_intercalate path⟩
  · intro rt ps k
    constructor
    · intro v hv
      simp only [member, hv]
    · intro hv
      simp only [member, hv]
  · intro v
    cases v with
    | native id => simp [PVal.truthy]
    | json w =>
        cases w with
        | undefined => simp [PVal.truthy, JVal.truthy]
        | null => simp [PVal.truthy, JVal.truthy]
        | bool b => cases b <;> simp [PVal.truthy, JVal.truthy]
        | num n => simp [PVal.truthy, JVal.truthy]
        | str s => cases s <;> simp [PVal.truthy, JVal.truthy]
        | arr xs => simp [PVal.truthy, JVal.truthy]
        | obj qs => simp [PVal.truthy, JVal.truthy]
  · intro rt ps k hk hnull
    unfold getNestedValue
    rw [splitDot_no_dot k hk, List.foldlM_cons,
      nestedStep_of_truthy rt (o := PVal.json (JVal.obj ps)) k rfl]
    simp only [member, hnull]
    rfl
  · intro rt stringify first f
    refine ⟨?_, ?_, ?_⟩
    · intro h
      simp only [fieldLine, h]
    · intro h
      simp only [fieldLine, h]
      rfl
    · intro v h hv
      have hu : v.isUndefined = false := by
        cases hq : v.isUndefined
        · rfl
        · exact absurd ((pval_isUndefined_iff v).mp hq) hv
      simp only [fieldLine, h, hu]
      simp

/-- Witness for C3: in `{a: {b: null}}` the path `a.b.c` runs through the `null`
held by `a.b`; the path `b` of `{b: null}` resolves to `null`; and on `{}` the
path `constructor.name` resolves through the inherited `constructor`. -/
theorem getNestedValue_undefined_iff_witness :
    getNestedValue exampleRuntime
        (JVal.obj [("a".toList, JVal.obj [("b".toList, JVal.null)])])
        "a.b.c".toList = some (PVal.json JVal.undefined)
    ∧ getNestedValue exampleRuntime (JVal.obj [("b".toList, JVal.null)]) "b".toList
        = some (PVal.json JVal.null)
    ∧ fieldLine exampleRuntime exampleStringify (JVal.obj []) "constructor.name".toList
        = some "  [OK] constructor.name = \"Object\"".toList :=
  ⟨(getNestedValue_undefined_iff.1 exampleRuntime
      [("a".toList, JVal.obj [("b".toList, JVal.null)])] "a.b.c".toList).mpr
      ⟨["a".toList], "b".toList, ["c".toList], PVal.json JVal.null, rfl, rfl,
        Or.inr ⟨by decide, rfl⟩⟩,
   getNestedValue_undefined_iff.2.2.2.2.2.1 exampleRuntime [("b".toList, JVal.null)]
      "b".toList (by decide) rfl,
   (getNestedValue_undefined_iff.2.2.2.2.2.2 exampleRuntime exampleStringify (JVal.obj [])
      "constructor.name".toList).2.2 (PVal.json (JVal.str "Object".toList)) rfl
      (fun e => by cases e)⟩

theorem logUntilRaise_all (rt : Runtime) (stringify : PVal → Text) (first : JVal) :
    ∀ paths : List Text, (∀ f ∈ paths, ∃ v, getNestedValue rt first f = some v) →
      (logUntilRaise (paths.map (fieldLine rt stringify first))).raised = false
      ∧ List.Forall₂ (fun f l => fieldLine rt stringify first f = some l) paths
          (logUntilRaise (paths.map (fieldLine rt stringify first))).lines
  | [], _ => ⟨rfl, List.Forall₂.nil⟩
  | f :: fs, h => by
      obtain ⟨v, hv⟩ := h f (List.mem_cons_self f fs)
      obtain ⟨hr, hl⟩ := logUntilRaise_all rt stringify first fs
        (fun g hg => h g (List.mem_cons_of_mem f hg))
      have hline : ∃ l, fieldLine rt stringify first f = some l := by
        simp only [fieldLine, hv]
        exact ⟨_, rfl⟩
      obtain ⟨l, hlf⟩ := hline
      simp only [List.map_cons, hlf, logUntilRaise]
      exact ⟨hr, List.Forall₂.cons hlf hl⟩

theorem logUntilRaise_stop (rt : Runtime) (stringify : PVal → Text) (first : JVal)
    (f : Text) (post : List Text) (hf : getNestedValue rt first f = none) :
    ∀ pre : List Text, (∀ g ∈ pre, ∃ v, getNestedValue rt first g = some v) →
      (logUntilRaise ((pre ++ f :: post).map (fieldLine rt stringify first))).raised = true
      ∧ List.Forall₂ (fun g l => fieldLine rt stringify first g = some l) pre
          (logUntilRaise ((pre ++ f :: post).map (fieldLine rt stringify first))).lines
  | [], _ => by
      have : fieldLine rt stringify first f = none := by simp only [fieldLine, hf]
      simp only [List.nil_append, List.map_cons, this, logUntilRaise]
      exact ⟨trivial, List.Forall₂.nil⟩
  | g :: gs, h => by
      obtain ⟨v, hv⟩ := h g (List.mem_cons_self g gs)
      obtain ⟨hr, hl⟩ := logUntilRaise_stop rt stringify first f post hf gs
        (fun x hx => h x (List.mem_cons_of_mem g hx))
      have hline : ∃ l, fieldLine rt stringify first g = some l := by
        simp only [fieldLine, hv]
        exact ⟨_, rfl⟩
      obtain ⟨l, hlg⟩ := hline
      simp only [List.cons_append, List.map_cons, hlg, logUntilRaise]
      exact ⟨hr, List.Forall₂.cons hlg hl⟩

theorem objectKeys_of_present (first : JVal) (h : first.nullish = false) :
    ∃ actual, objectKeys first = some actual := by
  cases first with
  | undefined => cases h
  | null => cases h
  | bool b => exact ⟨_, rfl⟩
  | num n => exact ⟨_, rfl⟩
  | str s => exact ⟨_, rfl⟩
  | arr ys => exact ⟨_, rfl⟩
  | obj ps => exact ⟨_, rfl⟩

theorem fieldLine_some (rt : Runtime) (stringify : PVal → Text) (first : JVal) (f l : Text)
    (h : fieldLine rt stringify first f = some l) :
    ∃ v, getNestedValue rt first f = some v
      ∧ l = if v.isUndefined then
            "  [MISSING] ".toList ++ f ++ " -- UPDATE FIELD NAME IN EXPRESSIONS".toList
          else "  [OK] ".toList ++ f ++ " = ".toList ++ stringify v := by
  unfold fieldLine at h
  cases hv : getNestedValue rt first f with
  | none => rw [hv] at h; cases h
  | some v =>
      rw [hv] at h
      refine ⟨v, rfl, ?_⟩
      have h2 := (Option.some.inj h).symm
      cases hu : v.isUndefined with
      | true => rw [h2]; simp [hu]
      | false => rw [h2]; simp [hu]

/-- C10 (counterexample): for the one-record sequence `[{}]` and the expected
paths `constructor.caller` and `title`, the lookup of the first path throws, so
the report holds the header and the line of actual fields and no found/missing
line at all. -/
theorem inspectFields_raising_path_cuts_report :
    (inspectFields exampleRuntime exampleStringify "L".toList (JVal.arr [JVal.obj []])
        ["constructor.caller".toList, "title".toList]).lines
      = ["\n── L field report ──".toList, "  Actual top-level fields: ".toList]
    ∧ (inspectFields exampleRuntime exampleStringify "L".toList (JVal.arr [JVal.obj []])
        ["constructor.caller".toList, "title".toList]).raised = true := by
  decide

/-- C10 (amended): `inspectFields` inspects the first element only.  Two
non-empty sequences with the same first element give the same report.  For a
first element that is a record, the report is the header, the line of actual
fields, and then, when no lookup of an expected path raises, exactly one line per
expected path in the order given, `[MISSING] path -- UPDATE FIELD NAME IN
EXPRESSIONS` when the path resolves to `undefined` and `[OK] path = value`
otherwise; a path whose lookup raises ends the report after the lines of the
paths before it.  For an empty sequence the report is the header and the
explicit line `(empty array — no field names to inspect)`. -/
theorem inspectFields_first_only :
    (∀ (rt : Runtime) (stringify : PVal → Text) (label : Text) (first : JVal)
        (xs ys : List JVal) (paths : List Text),
        inspectFields rt stringify label (JVal.arr (first :: xs)) paths
          = inspectFields rt stringify label (JVal.arr (first :: ys)) paths)
    ∧ (∀ (rt : Runtime) (stringify : PVal → Text) (label : Text) (first : JVal)
        (xs : List JVal) (paths : List Text), first.nullish = false →
        (∀ f ∈ paths, ∃ v, getNestedValue rt first f = some v) →
        ∃ actual ls, objectKeys first = some actual
          ∧ (inspectFields rt stringify label (JVal.arr (first :: xs)) paths).lines
            = ("\n── ".toList ++ label ++ " field report ──".toList)
                :: ("  Actual top-level fields: ".toList ++ ", ".toList.intercalate actual)
                :: ls
          ∧ (inspectFields rt stringify label (JVal.arr (first :: xs)) paths).raised = false
          ∧ List.Forall₂ (fun f l => ∃ v, getNestedValue rt first f = some v
              ∧ l = if v.isUndefined then
                    "  [MISSING] ".toList ++ f
                      ++ " -- UPDATE FIELD NAME IN EXPRESSIONS".toList
                  else "  [OK] ".toList ++ f ++ " = ".toList ++ stringify v) paths ls)
    ∧ (∀ (rt : Runtime) (stringify : PVal → Text) (label : Text) (first : JVal)
        (xs : List JVal) (pre : List Text) (f : Text) (post : List Text),
        first.nullish = false →
        (∀ g ∈ pre, ∃ v, getNestedValue rt first g = some v) →
        getNestedValue rt first f = none →
        ∃ actual ls, objectKeys first = some actual
          ∧ (inspectFields rt stringify label (JVal.arr (first :: xs))
              (pre ++ f :: post)).lines
            = ("\n── ".toList ++ label ++ " field report ──".toList)
                :: ("  Actual top-level fields: ".toList ++ ", ".toList.intercalate actual)
                :: ls
          ∧ (inspectFields rt stringify label (JVal.arr (first :: xs))
              (pre ++ f :: post)).raised = true
          ∧ List.Forall₂ (fun g l => ∃ v, getNestedValue rt first g = some v
              ∧ l = if v.isUndefined then
                    "  [MISSING] ".toList ++ g
                      ++ " -- UPDATE FIELD NAME IN EXPRESSIONS".toList
                  else "  [OK] ".toList ++ g ++ " = ".toList ++ stringify v) pre ls)
    ∧ (∀ (rt : Runtime) (stringify : PVal → Text) (label : Text) (paths : List Text),
        (inspectFields rt stringify label (JVal.arr []) paths).lines
          = ["\n── ".toList ++ label ++ " field report ──".toList,
              "  (empty array — no field names to inspect)".toList]
        ∧ (inspectFields rt stringify label (JVal.arr []) paths).raised = false) := by
  refine ⟨fun _ _ _ _ _ _ _ => rfl, ?_, ?_, fun _ _ _ _ => ⟨rfl, rfl⟩⟩
  · intro rt stringify label first xs paths hn hall
    obtain ⟨actual, hk⟩ := objectKeys_of_present first hn
    obtain ⟨hr, hl⟩ := logUntilRaise_all rt stringify first paths hall
    refine ⟨actual, _, hk, ?_, ?_, hl.imp (fun {f l} h => fieldLine_some rt stringify first f l h)⟩
    · simp only [inspectFields, hk]
    · simp only [inspectFields, hk]
      exact hr
  · intro rt stringify label first xs pre f post hn hall hf
    obtain ⟨actual, hk⟩ := objectKeys_of_present first hn
    obtain ⟨hr, hl⟩ := logUntilRaise_stop rt stringify first f post hf pre hall
    refine ⟨actual, _, hk, ?_, ?_, hl.imp (fun {g l} h => fieldLine_some rt stringify first g l h)⟩
    · simp only [inspectFields, hk]
    · simp only [inspectFields, hk]
      exact hr

/-- Witness for C10: the record `{a: null, t: "x"}` inspected for the paths `a`,
`b` and `t`: the report holds the header, the line of actual fields and one
line per path, in order. -/
theorem inspectFields_first_only_witness :
    (∃ actual ls, objectKeys (JVal.obj [("a".toList, JVal.null),
          ("t".toList, JVal.str "x".toList)]) = some actual
      ∧ (inspectFields exampleRuntime exampleStringify "L".toList
          (JVal.arr [JVal.obj [("a".toList, JVal.null), ("t".toList, JVal.str "x".toList)]])
          ["a".toList, "b".toList, "t".toList]).lines
        = ("\n── ".toList ++ "L".toList ++ " field report ──".toList)
            :: ("  Actual top-level fields: ".toList ++ ", ".toList.intercalate actual)
            :: ls
      ∧ (inspectFields exampleRuntime exampleStringify "L".toList
          (JVal.arr [JVal.obj [("a".toList, JVal.null), ("t".toList, JVal.str "x".toList)]])
          ["a".toList, "b".toList, "t".toList]).raised = false
      ∧ List.Forall₂ (fun f l => ∃ v, getNestedValue exampleRuntime
              (JVal.obj [("a".toList, JVal.null), ("t".toList, JVal.str "x".toList)]) f
              = some v
          ∧ l = if v.isUndefined then
                "  [MISSING] ".toList ++ f ++ " -- UPDATE FIELD NAME IN EXPRESSIONS".toList
              else "  [OK] ".toList ++ f ++ " = ".toList ++ exampleStringify v)
          ["a".toList, "b".toList, "t".toList] ls)
    ∧ (inspectFields exampleRuntime exampleStringify "L".toList
        (JVal.arr [JVal.obj [("a".toList, JVal.null), ("t".toList, JVal.str "x".toList)]])
        ["a".toList, "b".toList, "t".toList]).lines
      = ["\n── L field report ──".toList, "  Actual top-level fields: a, t".toList,
          "  [OK] a = null".toList,
          "  [MISSING] b -- UPDATE FIELD NAME IN EXPRESSIONS".toList,
          "  [OK] t = \"x\"".toList] :=
  ⟨inspectFields_first_only.2.1 exampleRuntime exampleStringify "L".toList
    (JVal.obj [("a".toList, JVal.null), ("t".toList, JVal.str "x".toList)]) []
    ["a".toList, "b".toList, "t".toList] rfl
    (by
      intro f hf
      simp only [List.mem_cons, List.mem_singleton, List.not_mem_nil, or_false] at hf
      rcases hf with rfl | rfl | rfl
      · exact ⟨_, rfl⟩
      · exact ⟨_, rfl⟩
      · exact ⟨_, rfl⟩),
   by decide⟩

/-! ## Fallback chains and glyphs: claims C5, C6 and C7 -/

theorem coalesce_of_nullish {a b : JVal} (h : a.nullish = true) : coalesce a b = b := by
  simp [coalesce, h]

theorem coalesce_of_present {a b : JVal} (h : a.nullish = false) : coalesce a b = a := by
  simp [coalesce, h]

theorem coalesce2_first {a : JVal} (b d : JVal) (h : a.nullish = false) :
    coalesce (coalesce a b) d = a := by
  rw [coalesce_of_present (a := a) h, coalesce_of_present h]

theorem coalesce2_second {a b : JVal} (d : JVal) (ha : a.nullish = true)
    (hb : b.nullish = false) : coalesce (coalesce a b) d = b := by
  rw [coalesce_of_nullish (a := a) ha, coalesce_of_present hb]

theorem coalesce2_default {a b : JVal} (d : JVal) (ha : a.nullish = true)
    (hb : b.nullish = true) : coalesce (coalesce a b) d = d := by
  rw [coalesce_of_nullish (a := a) ha, coalesce_of_nullish hb]

theorem commentHtml_eq {c : JVal} {a t b : Text} (ha : toStr (commentAuthor c) = some a)
    (ht : toStr (commentStamp c) = some t) (hb : toStr (commentBody c) = some b) :
    commentHtml c = some ("<p><strong>".toList ++ a ++ "</strong> — ".toList ++ t
      ++ "<br/>".toList ++ b ++ "</p>".toList) := by
  simp [commentHtml, ha, ht, hb]

theorem itemHtml_eq {item : JVal} {l : Text} (hl : toStr (itemLabel item) = some l) :
    itemHtml item = some ("<p>".toList
      ++ (if itemDone item then "&#10003;".toList else "&#9744;".toList)
      ++ " ".toList ++ l ++ "</p>".toList) := by
  simp [itemHtml, hl]

theorem checklistHtml_eq {cl : JVal} {h items : Text} (hi : itemsMarkup cl = some items)
    (hh : toStr (checklistHeading cl) = some h) :
    checklistHtml cl = some ("<h3>".toList ++ h ++ "</h3>".toList ++ items) := by
  simp [checklistHtml, hi, hh]

/-- C5 (counterexample): for the empty comment record the author name is
rendered as `(unknown)`, so the markup is not `<p><strong></strong> — <br/></p>`. -/
theorem commentHtml_empty_record_author_unknown :
    commentHtml (JVal.obj []) = some "<p><strong>(unknown)</strong> — <br/></p>".toList
    ∧ commentHtml (JVal.obj []) ≠ some "<p><strong></strong> — <br/></p>".toList := by
  decide

/-- C5 (amended): when none of `author.name`, `created`, `createdAt`, `content`
and `text` resolves, the timestamp and the body default to the empty string and
the author name to `(unknown)`: the comment is rendered as exactly
`<p><strong>(unknown)</strong> — <br/></p>`. -/
theorem commentHtml_defaults (c : JVal)
    (hauthor : (optGet (optGet c "author".toList) "name".toList).nullish = true)
    (hcreated : (optGet c "created".toList).nullish = true)
    (hcreatedAt : (optGet c "createdAt".toList).nullish = true)
    (hcontent : (optGet c "content".toList).nullish = true)
    (htext : (optGet c "text".toList).nullish = true) :
    commentAuthor c = JVal.str "(unknown)".toList
    ∧ commentStamp c = JVal.str []
    ∧ commentBody c = JVal.str []
    ∧ commentHtml c = some "<p><strong>(unknown)</strong> — <br/></p>".toList
    ∧ commentsMarkup [c] = some "<p><strong>(unknown)</strong> — <br/></p>".toList := by
  have ha : commentAuthor c = JVal.str "(unknown)".toList := coalesce_of_nullish hauthor
  have hs : commentStamp c = JVal.str [] := coalesce2_default _ hcreated hcreatedAt
  have hb : commentBody c = JVal.str [] := coalesce2_default _ hcontent htext
  have hh : commentHtml c = some "<p><strong>(unknown)</strong> — <br/></p>".toList := by
    rw [commentHtml_eq (a := "(unknown)".toList) (t := []) (b := [])
      (by rw [ha]; rfl) (by rw [hs]; rfl) (by rw [hb]; rfl)]
    rfl
  refine ⟨ha, hs, hb, hh, ?_⟩
  simp only [commentsMarkup, List.mapM_cons, List.mapM_nil, hh]
  rfl

/-- Witness for C5: the empty mapping. -/
theorem commentHtml_defaults_witness :
    commentHtml (JVal.obj []) = some "<p><strong>(unknown)</strong> — <br/></p>".toList :=
  (commentHtml_defaults (JVal.obj []) rfl rfl rfl rfl rfl).2.2.2.1

/-- C6 (counterexample): a comment record that contains both `content` and
`text`, with `content` holding `null`, is rendered with the value of `text`; and
one whose `created` holds `null` is rendered with `createdAt`. -/
theorem commentHtml_null_content_uses_text :
    getProp (JVal.obj [("content".toList, JVal.null), ("text".toList, JVal.str "x".toList)])
        "content".toList = JVal.null
    ∧ commentHtml (JVal.obj [("content".toList, JVal.null),
        ("text".toList, JVal.str "x".toList)])
      = some "<p><strong>(unknown)</strong> — <br/>x</p>".toList
    ∧ commentHtml (JVal.obj [("created".toList, JVal.null),
        ("createdAt".toList, JVal.str "y".toList)])
      = some "<p><strong>(unknown)</strong> — y<br/></p>".toList :=
  ⟨rfl, by decide, by decide⟩

/-- C6 (amended): fallback is first-match-wins over the fields that are neither
missing nor `null`.  A comment's body is its `content` when that is present and
not `null`, whatever `text` holds, and its `text` only when `content` is
missing or `null`; its timestamp is `created` when present and not `null` and
`createdAt` otherwise; a checklist's heading and an item's label are `title`
when present and not `null` and `name` otherwise. -/
theorem fallback_first_match_wins :
    (∀ (c : JVal) (a t b : Text), toStr (commentAuthor c) = some a →
        toStr (commentStamp c) = some t →
        (optGet c "content".toList).nullish = false →
        toStr (optGet c "content".toList) = some b →
        commentHtml c = some ("<p><strong>".toList ++ a ++ "</strong> — ".toList ++ t
          ++ "<br/>".toList ++ b ++ "</p>".toList))
    ∧ (∀ (c : JVal) (a t b : Text), toStr (commentAuthor c) = some a →
        toStr (commentStamp c) = some t →
        (optGet c "content".toList).nullish = true →
        (optGet c "text".toList).nullish = false →
        toStr (optGet c "text".toList) = some b →
        commentHtml c = some ("<p><strong>".toList ++ a ++ "</strong> — ".toList ++ t
          ++ "<br/>".toList ++ b ++ "</p>".toList))
    ∧ (∀ (c : JVal) (a t b : Text), toStr (commentAuthor c) = some a →
        toStr (commentBody c) = some b →
        (optGet c "created".toList).nullish = false →
        toStr (optGet c "created".toList) = some t →
        commentHtml c = some ("<p><strong>".toList ++ a ++ "</strong> — ".toList ++ t
          ++ "<br/>".toList ++ b ++ "</p>".toList))
    ∧ (∀ (c : JVal) (a t b : Text), toStr (commentAuthor c) = some a →
        toStr (commentBody c) = some b →
        (optGet c "created".toList).nullish = true →
        (optGet c "createdAt".toList).nullish = false →
        toStr (optGet c "createdAt".toList) = some t →
        commentHtml c = some ("<p><strong>".toList ++ a ++ "</strong> — ".toList ++ t
          ++ "<br/>".toList ++ b ++ "</p>".toList))
    ∧ (∀ (cl : JVal) (h items : Text), itemsMarkup cl = some items →
        (optGet cl "title".toList).nullish = false →
        toStr (optGet cl "title".toList) = some h →
        checklistHtml cl = some ("<h3>".toList ++ h ++ "</h3>".toList ++ items))
    ∧ (∀ (cl : JVal) (h items : Text), itemsMarkup cl = some items →
        (optGet cl "title".toList).nullish = true →
        (optGet cl "name".toList).nullish = false →
        toStr (optGet cl "name".toList) = some h →
        checklistHtml cl = some ("<h3>".toList ++ h ++ "</h3>".toList ++ items))
    ∧ (∀ (item : JVal) (l : Text),
        (optGet item "title".toList).nullish = false →
        toStr (optGet item "title".toList) = some l →
        itemHtml item = some ("<p>".toList
          ++ (if itemDone item then "&#10003;".toList else "&#9744;".toList)
          ++ " ".toList ++ l ++ "</p>".toList))
    ∧ (∀ (item : JVal) (l : Text),
        (optGet item "title".toList).nullish = true →
        (optGet item "name".toList).nullish = false →
        toStr (optGet item "name".toList) = some l →
        itemHtml item = some ("<p>".toList
          ++ (if itemDone item then "&#10003;".toList else "&#9744;".toList)
          ++ " ".toList ++ l ++ "</p>".toList)) := by
  refine ⟨?_, ?_, ?_, ?_, ?_, ?_, ?_, ?_⟩
  · intro c a t b ha ht hp hb
    exact commentHtml_eq ha ht (by rw [show commentBody c = _ from coalesce2_first _ _ hp]; exact hb)
  · intro c a t b ha ht hc hp hb
    exact commentHtml_eq ha ht (by rw [show commentBody c = _ from coalesce2_second _ hc hp]; exact hb)
  · intro c a t b ha hb hp ht
    exact commentHtml_eq ha (by rw [show commentStamp c = _ from coalesce2_first _ _ hp]; exact ht) hb
  · intro c a t b ha hb hc hp ht
    exact commentHtml_eq ha (by rw [show commentStamp c = _ from coalesce2_second _ hc hp]; exact ht) hb
  · intro cl h items hi hp hh
    exact checklistHtml_eq hi (by rw [show checklistHeading cl = _ from coalesce2_first _ _ hp]; exact hh)
  · intro cl h items hi hc hp hh
    exact checklistHtml_eq hi (by rw [show checklistHeading cl = _ from coalesce2_second _ hc hp]; exact hh)
  · intro item l hp hl
    exact itemHtml_eq (by rw [show itemLabel item = _ from coalesce2_first _ _ hp]; exact hl)
  · intro item l hc hp hl
    exact itemHtml_eq (by rw [show itemLabel item = _ from coalesce2_second _ hc hp]; exact hl)

/-- Witness for C6: a comment holding both `content` and `text` (and both
`created` and `createdAt`) is rendered with `content`. -/
theorem fallback_first_match_wins_witness :
    commentHtml (JVal.obj [("text".toList, JVal.str "T".toList),
        ("content".toList, JVal.str "C".toList), ("createdAt".toList, JVal.str "2".toList),
        ("created".toList, JVal.str "1".toList)])
      = some "<p><strong>(unknown)</strong> — 1<br/>C</p>".toList :=
  fallback_first_match_wins.1 (JVal.obj [("text".toList, JVal.str "T".toList),
        ("content".toList, JVal.str "C".toList), ("createdAt".toList, JVal.str "2".toList),
        ("created".toList, JVal.str "1".toList)])
    "(unknown)".toList "1".toList "C".toList rfl rfl rfl rfl

/-- C7: an item is rendered with the check mark `&#10003;` exactly when its
`status` equals `"complete"`, its `checked` equals `true` or its `state` equals
`"complete"`, and with the empty box `&#9744;` in every other case, the one where
all three fields are absent included.  The glyph is followed by the item's
label. -/
theorem itemHtml_glyph (item : JVal) :
    ((optGet item "status".toList = JVal.str "complete".toList
        ∨ optGet item "checked".toList = JVal.bool true
        ∨ optGet item "state".toList = JVal.str "complete".toList) →
      itemHtml item = (toStr (itemLabel item)).map
        (fun l => "<p>&#10003; ".toList ++ l ++ "</p>".toList))
    ∧ (¬ (optGet item "status".toList = JVal.str "complete".toList
        ∨ optGet item "checked".toList = JVal.bool true
        ∨ optGet item "state".toList = JVal.str "complete".toList) →
      itemHtml item = (toStr (itemLabel item)).map
        (fun l => "<p>&#9744; ".toList ++ l ++ "</p>".toList)) := by
  have hstr : ∀ v : JVal, v.isStr "complete".toList = true ↔ v = JVal.str "complete".toList := by
    intro v
    cases v <;> simp [JVal.isStr]
  have htrue : ∀ v : JVal, v.isTrue = true ↔ v = JVal.bool true := by
    intro v
    cases v <;> simp [JVal.isTrue]
  have hdone : itemDone item = true ↔
      (optGet item "status".toList = JVal.str "complete".toList
        ∨ optGet item "checked".toList = JVal.bool true
        ∨ optGet item "state".toList = JVal.str "complete".toList) := by
    simp only [itemDone, Bool.or_eq_true, hstr, htrue, or_assoc]
  cases hl : toStr (itemLabel item) with
  | none =>
      have hnone : itemHtml item = none := by
        unfold itemHtml
        rw [hl]
        rfl
      exact ⟨fun _ => hnone, fun _ => hnone⟩
  | some l =>
      constructor
      · intro h
        rw [itemHtml_eq hl, if_pos (hdone.mpr h)]
        rfl
      · intro h
        have : ¬ itemDone item = true := fun e => h (hdone.mp e)
        rw [itemHtml_eq hl, if_neg this]
        rfl

/-- Witness for C7: an item whose `checked` is `true`, and an item without any
of the three fields. -/
theorem itemHtml_glyph_witness :
    itemHtml (JVal.obj [("title".toList, JVal.str "i1".toList),
        ("checked".toList, JVal.bool true)]) = some "<p>&#10003; i1</p>".toList
    ∧ itemHtml (JVal.obj []) = some "<p>&#9744; </p>".toList :=
  ⟨(itemHtml_glyph (JVal.obj [("title".toList, JVal.str "i1".toList),
        ("checked".toList, JVal.bool true)])).1 (Or.inr (Or.inl rfl)),
   (itemHtml_glyph (JVal.obj [])).2 (by
      rintro (h | h | h) <;> exact JVal.noConfusion h)⟩

/-! ## Order and sections: claims C8 and C9 -/

theorem digitChar_spec (m : Nat) (h : m < 10) :
    (Nat.digitChar m).isDigit = true ∧ (Nat.digitChar m).toNat - 48 = m
      ∧ (Nat.digitChar m = '0' → m = 0) := by
  interval_cases m <;> decide

theorem numeralValue_append (r : Text) (d : Char) :
    numeralValue (r ++ [d]) = 10 * numeralValue r + (d.toNat - 48) := by
  simp [numeralValue, List.foldl_append]

theorem toDigitsCore_spec : ∀ (fuel n : Nat) (ds : List Char), n < fuel →
    ∃ r : Text, Nat.toDigitsCore 10 fuel n ds = r ++ ds ∧ r ≠ []
      ∧ (∀ c ∈ r, c.isDigit = true) ∧ (r.head? = some '0' → n = 0 ∧ r = ['0'])
      ∧ numeralValue r = n := by
  intro fuel
  induction fuel with
  | zero => intro n ds h; omega
  | succ fuel ih =>
      intro n ds h
      obtain ⟨hd1, hd2, hd3⟩ := digitChar_spec (n % 10) (Nat.mod_lt n (by decide))
      by_cases hq : n / 10 = 0
      · have hn : n < 10 := by omega
        have hmod : n % 10 = n := Nat.mod_eq_of_lt hn
        refine ⟨[Nat.digitChar (n % 10)], ?_, by simp, ?_, ?_, ?_⟩
        · simp [Nat.toDigitsCore, hq]
        · intro c hc
          rw [List.mem_singleton] at hc
          rw [hc]; exact hd1
        · intro hh
          have e : Nat.digitChar (n % 10) = '0' := by simpa using hh
          have h0 : n = 0 := by have := hd3 e; omega
          refine ⟨h0, ?_⟩
          rw [e]
        · simp only [numeralValue, List.foldl_cons, List.foldl_nil]
          omega
      · have hlt : n / 10 < fuel := by omega
        obtain ⟨r, hr, hne, hdig, hhead, hval⟩ := ih (n / 10) (Nat.digitChar (n % 10) :: ds) hlt
        refine ⟨r ++ [Nat.digitChar (n % 10)], ?_, by simp, ?_, ?_, ?_⟩
        · simp only [Nat.toDigitsCore, hq, if_false]
          rw [hr]
          simp
        · intro c hc
          rcases List.mem_append.mp hc with h1 | h1
          · exact hdig c h1
          · rw [List.mem_singleton] at h1
            rw [h1]; exact hd1
        · intro hh
          exfalso
          cases r with
          | nil => exact hne rfl
          | cons x xs =>
              have : (x :: xs).head? = some '0' := by simpa using hh
              exact hq (hhead this).1
        · rw [numeralValue_append, hval]
          omega

theorem decimal_isNumeral (n : Nat) : IsNumeral (decimal n) n := by
  obtain ⟨r, hr, hne, hdig, hhead, hval⟩ := toDigitsCore_spec (n + 1) n [] (Nat.lt_succ_self n)
  have e : decimal n = r := by
    unfold decimal Nat.toDigits
    rw [hr]
    simp
  rw [e]
  exact ⟨hne, hdig, fun h => (hhead h).2, hval⟩

theorem joinAll_append (a b : List Text) : joinAll (a ++ b) = joinAll a ++ joinAll b := by
  induction a with
  | nil => rfl
  | cons x xs ih =>
      simp only [joinAll, List.cons_append, List.foldr_cons] at ih ⊢
      rw [ih, List.append_assoc]

theorem mapM_join_append (f : JVal → Option Text) (xs ys : List JVal) :
    ((xs ++ ys).mapM f).map joinAll
      = ((xs.mapM f).map joinAll).bind
          (fun a => ((ys.mapM f).map joinAll).map (fun b => a ++ b)) := by
  induction xs with
  | nil =>
      simp only [List.nil_append, List.mapM_nil]
      cases (ys.mapM f) <;> rfl
  | cons x xs ih =>
      simp only [List.cons_append, List.mapM_cons]
      cases hx : f x with
      | none => rfl
      | some fx =>
          cases hxy : (xs ++ ys).mapM f with
          | none =>
              rw [hxy] at ih
              cases hxs : xs.mapM f with
              | none => rfl
              | some fxs =>
                  rw [hxs] at ih
                  cases hys : ys.mapM f with
                  | none => rfl
                  | some fys => rw [hys] at ih; cases ih
          | some fxy =>
              rw [hxy] at ih
              cases hxs : xs.mapM f with
              | none => rw [hxs] at ih; cases ih
              | some fxs =>
                  rw [hxs] at ih
                  cases hys : ys.mapM f with
                  | none => rw [hys] at ih; cases ih
                  | some fys =>
                      rw [hys] at ih
                      have e : joinAll fxy = joinAll fxs ++ joinAll fys := by
                        simpa using ih
                      show some (joinAll (fx :: fxy)) = some (joinAll (fx :: fxs) ++ joinAll fys)
                      simp only [joinAll, List.foldr_cons] at e ⊢
                      rw [e, List.append_assoc]

theorem mapM_join_singleton (f : JVal → Option Text) (x : JVal) :
    ([x].mapM f).map joinAll = f x := by
  simp only [List.mapM_cons, List.mapM_nil]
  cases f x with
  | none => rfl
  | some fx => 
      show some (joinAll [fx]) = some fx
      simp [joinAll]

theorem itemsMarkup_of_items {cl : JVal} {items : List JVal}
    (h : optGet cl "items".toList = JVal.arr items) : itemsMarkup cl = itemsJoin items := by
  unfold itemsMarkup
  rw [h]
  rfl

/-- C8: rendering keeps the input order and neither filters nor deduplicates.
The comments markup of `xs ++ ys` is the markup of `xs` followed by that of
`ys`, the markup of a single comment is that comment's own fragment, and the
empty sequence gives the empty markup.  The same holds for the items of a
checklist: whenever the `items` of a checklist record is a sequence, wherever
the field stands in the record, the checklist is rendered as its heading
followed by the markup of exactly that sequence, which is again compatible with
append, singleton and empty.  And the same holds for the sequence of
checklists. -/
theorem markup_preserves_order :
    (∀ xs ys : List JVal, commentsMarkup (xs ++ ys)
        = (commentsMarkup xs).bind (fun a => (commentsMarkup ys).map (fun b => a ++ b)))
    ∧ (∀ c : JVal, commentsMarkup [c] = commentHtml c)
    ∧ commentsMarkup [] = some []
    ∧ (∀ xs ys : List JVal, itemsJoin (xs ++ ys)
        = (itemsJoin xs).bind (fun a => (itemsJoin ys).map (fun b => a ++ b)))
    ∧ (∀ item : JVal, itemsJoin [item] = itemHtml item)
    ∧ itemsJoin [] = some []
    ∧ (∀ (cl : JVal) (items : List JVal), optGet cl "items".toList = JVal.arr items →
        itemsMarkup cl = itemsJoin items)
    ∧ (∀ (cl : JVal) (items : List JVal) (h m : Text),
        optGet cl "items".toList = JVal.arr items → toStr (checklistHeading cl) = some h →
        itemsJoin items = some m →
        checklistHtml cl = some ("<h3>".toList ++ h ++ "</h3>".toList ++ m))
    ∧ (∀ xs ys : List JVal, checklistsMarkup (xs ++ ys)
        = (checklistsMarkup xs).bind (fun a => (checklistsMarkup ys).map (fun b => a ++ b)))
    ∧ (∀ cl : JVal, checklistsMarkup [cl] = checklistHtml cl)
    ∧ checklistsMarkup [] = some [] :=
  ⟨fun xs ys => mapM_join_append commentHtml xs ys,
   fun c => mapM_join_singleton commentHtml c, rfl,
   fun xs ys => mapM_join_append itemHtml xs ys,
   fun item => mapM_join_singleton itemHtml item, rfl,
   fun _ _ h => itemsMarkup_of_items h,
   fun _ _ _ _ hi hh hm => checklistHtml_eq (by rw [itemsMarkup_of_items hi]; exact hm) hh,
   fun xs ys => mapM_join_append checklistHtml xs ys,
   fun cl => mapM_join_singleton checklistHtml cl, rfl⟩

/-- Witness for C8: the checklist `{title: "C", items: [i1 (complete), i2]}`,
whose `items` field is not the first one, is rendered as its heading followed by
its two items in their order; so is a sequence of two comments. -/
theorem markup_preserves_order_witness :
    checklistHtml (JVal.obj [("title".toList, JVal.str "C".toList),
        ("items".toList, JVal.arr [
          JVal.obj [("title".toList, JVal.str "i1".toList),
            ("status".toList, JVal.str "complete".toList)],
          JVal.obj [("name".toList, JVal.str "i2".toList)]])])
      = some ("<h3>".toList ++ "C".toList ++ "</h3>".toList
          ++ "<p>&#10003; i1</p><p>&#9744; i2</p>".toList)
    ∧ commentsMarkup [JVal.obj [("content".toList, JVal.str "one".toList)],
        JVal.obj [("content".toList, JVal.str "two".toList)]]
      = some ("<p><strong>(unknown)</strong> — <br/>one</p>".toList
          ++ "<p><strong>(unknown)</strong> — <br/>two</p>".toList) :=
  ⟨markup_preserves_order.2.2.2.2.2.2.2.1
      (JVal.obj [("title".toList, JVal.str "C".toList),
        ("items".toList, JVal.arr [
          JVal.obj [("title".toList, JVal.str "i1".toList),
            ("status".toList, JVal.str "complete".toList)],
          JVal.obj [("name".toList, JVal.str "i2".toList)]])])
      [JVal.obj [("title".toList, JVal.str "i1".toList),
          ("status".toList, JVal.str "complete".toList)],
        JVal.obj [("name".toList, JVal.str "i2".toList)]]
      "C".toList "<p>&#10003; i1</p><p>&#9744; i2</p>".toList rfl rfl (by decide),
   by decide⟩

theorem commentHtml_ne_nil {c : JVal} {f : Text} (h : commentHtml c = some f) : f ≠ [] := by
  unfold commentHtml at h
  cases ha : toStr (commentAuthor c) with
  | none => rw [ha] at h; cases h
  | some a =>
    cases ht : toStr (commentStamp c) with
    | none => rw [ha, ht] at h; cases h
    | some t =>
      cases hb : toStr (commentBody c) with
      | none => rw [ha, ht, hb] at h; cases h
      | some b =>
        rw [ha, ht, hb] at h
        have e : "<p><strong>".toList ++ a ++ "</strong> — ".toList ++ t
            ++ "<br/>".toList ++ b ++ "</p>".toList = f := by
          simpa using h
        rw [← e]
        simp

theorem checklistHtml_ne_nil {cl : JVal} {f : Text} (h : checklistHtml cl = some f) :
    f ≠ [] := by
  unfold checklistHtml at h
  cases hi : itemsMarkup cl with
  | none => rw [hi] at h; cases h
  | some items =>
    cases hh : toStr (checklistHeading cl) with
    | none => rw [hi, hh] at h; cases h
    | some hd =>
      rw [hi, hh] at h
      have e : "<h3>".toList ++ hd ++ "</h3>".toList ++ items = f := by
        simpa using h
      rw [← e]
      simp

theorem mapM_join_eq_nil_iff (f : JVal → Option Text)
    (hf : ∀ x y, f x = some y → y ≠ []) (xs : List JVal) (m : Text)
    (h : (xs.mapM f).map joinAll = some m) : m = [] ↔ xs = [] := by
  cases xs with
  | nil =>
      simp only [List.mapM_nil] at h
      have : m = [] := by
        have h' : some (joinAll []) = some m := h
        simpa [joinAll] using h'.symm
      simp [this]
  | cons x xs =>
      simp only [List.mapM_cons] at h
      cases hx : f x with
      | none => rw [hx] at h; cases h
      | some fx =>
          rw [hx] at h
          cases hxs : xs.mapM f with
          | none => rw [hxs] at h; cases h
          | some fxs =>
              rw [hxs] at h
              have h' : some (joinAll (fx :: fxs)) = some m := h
              have e : fx ++ joinAll fxs = m := by simpa [joinAll] using h'
              have hne : fx ≠ [] := hf x fx hx
              constructor
              · intro hm
                rw [hm] at e
                exact absurd (List.append_eq_nil.mp e).1 hne
              · intro hc
                cases hc

theorem orText_eq (a b : Text) (empty : Bool) (h : a = [] ↔ empty = true) :
    orText a b = if empty then b else a := by
  cases empty with
  | true =>
      have : a = [] := h.mpr rfl
      simp [orText, this]
  | false =>
      have : a ≠ [] := fun e => by simpa using h.mp e
      cases a with
      | nil => exact absurd rfl this
      | cons x xs => simp [orText]

/-- C9: in every document `buildHtml` returns, the comments section is the header
`<h2>Comments (N)</h2>`, `N` being the decimal numeral of the number of
comments, followed by the placeholder `<p><em>No comments.</em></p>` when there
is no comment and by the comments markup, which is then not empty, otherwise;
the checklists section is built the same way from `<h2>Checklists (M)</h2>` and
`<p><em>No checklists.</em></p>`. -/
theorem buildHtml_sections (card : JVal) (comments checklists : List JVal) (doc : Text)
    (h : buildHtml card comments checklists = some doc) :
    ∃ top cm clm n m, commentsMarkup comments = some cm
      ∧ checklistsMarkup checklists = some clm
      ∧ IsNumeral n comments.length
      ∧ IsNumeral m checklists.length
      ∧ (cm = [] ↔ comments = [])
      ∧ (clm = [] ↔ checklists = [])
      ∧ doc = top ++ "<h2>Comments (".toList ++ n ++ ")</h2>\n  ".toList
          ++ (if comments.isEmpty then "<p><em>No comments.</em></p>".toList else cm)
          ++ "\n\n  ".toList
          ++ "<h2>Checklists (".toList ++ m ++ ")</h2>\n  ".toList
          ++ (if checklists.isEmpty then "<p><em>No checklists.</em></p>".toList else clm)
          ++ "\n</body>\n</html>".toList := by
  unfold buildHtml at h
  cases hcm : commentsMarkup comments with
  | none => rw [hcm] at h; cases h
  | some cm =>
    cases hclm : checklistsMarkup checklists with
    | none => rw [hcm, hclm] at h; cases h
    | some clm =>
      rw [hcm, hclm] at h
      simp only [Option.bind_eq_bind, Option.some_bind] at h
      have hce : cm = [] ↔ comments = [] :=
        mapM_join_eq_nil_iff commentHtml (fun _ _ => commentHtml_ne_nil) comments cm hcm
      have hcle : clm = [] ↔ checklists = [] :=
        mapM_join_eq_nil_iff checklistHtml (fun _ _ => checklistHtml_ne_nil) checklists clm hclm
      have ho1 : orText cm noComments
          = if comments.isEmpty then "<p><em>No comments.</em></p>".toList else cm :=
        orText_eq cm noComments comments.isEmpty (by rw [hce, List.isEmpty_iff])
      have ho2 : orText clm noChecklists
          = if checklists.isEmpty then "<p><em>No checklists.</em></p>".toList else clm :=
        orText_eq clm noChecklists checklists.isEmpty (by rw [hcle, List.isEmpty_iff])
      by_cases hn : card.nullish = true
      · rw [if_pos hn] at h; cases h
      · rw [if_neg hn] at h
        cases hd : coalesce (getProp card "description".toList) (JVal.str []) with
        | str description =>
          rw [hd] at h
          simp only [] at h
          cases ht : toStr (coalesce (getProp card "title".toList) (JVal.str [])) with
          | none => rw [ht] at h; cases h
          | some title =>
            cases hs : toStr (coalesce (getProp card "status".toList) (JVal.str [])) with
            | none => rw [ht, hs] at h; cases h
            | some status =>
              cases hc : toStr (coalesce
                  (optGet (getProp card "endDates".toList) "actual".toList) (JVal.str [])) with
              | none => rw [ht, hs, hc] at h; cases h
              | some completed =>
                rw [ht, hs, hc] at h
                simp only [Option.bind_eq_bind, Option.some_bind, pure, Option.some.injEq] at h
                refine ⟨pageTop title status completed (extractSharePointUrl description)
                  description, cm, clm, decimal comments.length, decimal checklists.length,
                  rfl, rfl, decimal_isNumeral _, decimal_isNumeral _, hce, hcle, ?_⟩
                rw [← h, commentsSection, checklistsSection, ho1, ho2]
                simp only [List.append_assoc]
        | undefined => rw [hd] at h; cases h
        | null => rw [hd] at h; cases h
        | bool b => rw [hd] at h; cases h
        | num n => rw [hd] at h; cases h
        | arr xs => rw [hd] at h; cases h
        | obj ps => rw [hd] at h; cases h

/-- Witness for C9: the empty card with one comment and no checklist; its
document ends with the two sections, `Comments (1)` followed by the comment and
`Checklists (0)` followed by the placeholder. -/
theorem buildHtml_sections_witness :
    (∃ top cm clm n m, commentsMarkup [JVal.obj []] = some cm
      ∧ checklistsMarkup [] = some clm
      ∧ IsNumeral n [JVal.obj []].length
      ∧ IsNumeral m ([] : List JVal).length
      ∧ (cm = [] ↔ [JVal.obj []] = [])
      ∧ (clm = [] ↔ ([] : List JVal) = [])
      ∧ pageTop [] [] [] notFound [] ++ ("<h2>Comments (1)</h2>\n  ".toList
          ++ "<p><strong>(unknown)</strong> — <br/></p>".toList
          ++ "\n\n  <h2>Checklists (0)</h2>\n  <p><em>No checklists.</em></p>".toList
          ++ "\n</body>\n</html>".toList)
        = top ++ "<h2>Comments (".toList ++ n ++ ")</h2>\n  ".toList
          ++ (if [JVal.obj []].isEmpty then "<p><em>No comments.</em></p>".toList else cm)
          ++ "\n\n  ".toList
          ++ "<h2>Checklists (".toList ++ m ++ ")</h2>\n  ".toList
          ++ (if ([] : List JVal).isEmpty then "<p><em>No checklists.</em></p>".toList else clm)
          ++ "\n</body>\n</html>".toList)
    ∧ buildHtml (JVal.obj []) [JVal.obj []] []
        = some (pageTop [] [] [] notFound [] ++ ("<h2>Comments (1)</h2>\n  ".toList
          ++ "<p><strong>(unknown)</strong> — <br/></p>".toList
          ++ "\n\n  <h2>Checklists (0)</h2>\n  <p><em>No checklists.</em></p>".toList
          ++ "\n</body>\n</html>".toList)) :=
  ⟨buildHtml_sections (JVal.obj []) [JVal.obj []] [] _ rfl, rfl⟩

/-! ## Totality of `buildHtml`: claim C4 -/

theorem any_key_eq (k : Text) (ps : List (Text × JVal)) :
    ps.any (fun p => p.1 == k) = (ownProp k ps).isSome := by
  induction ps with
  | nil => rfl
  | cons p ps ih =>
      unfold ownProp
      by_cases hp : p.1 = k
      · simp [hp]
      · simp [hp, ih]

mutual
theorem toStr_isSome_iff : ∀ v : JVal, (∃ s, toStr v = some s) ↔ convertible v = true
  | JVal.undefined => ⟨fun _ => rfl, fun _ => ⟨_, rfl⟩⟩
  | JVal.null => ⟨fun _ => rfl, fun _ => ⟨_, rfl⟩⟩
  | JVal.bool _ => ⟨fun _ => rfl, fun _ => ⟨_, rfl⟩⟩
  | JVal.num _ => ⟨fun _ => rfl, fun _ => ⟨_, rfl⟩⟩
  | JVal.str _ => ⟨fun _ => rfl, fun _ => ⟨_, rfl⟩⟩
  | JVal.arr xs => by
      rw [toStr, convertible]
      exact joinComma_isSome_iff xs
  | JVal.obj ps => by
      rw [toStr, convertible, any_key_eq]
      cases ownProp "toString".toList ps <;> simp
theorem joinComma_isSome_iff : ∀ xs : List JVal,
    (∃ s, joinComma xs = some s) ↔ convertibleAll xs = true
  | [] => ⟨fun _ => rfl, fun _ => ⟨_, rfl⟩⟩
  | x :: xs => by
      rw [joinComma, convertibleAll, Bool.and_eq_true, ← joinComma_isSome_iff xs,
        ← toStr_isSome_iff x]
      have hx : (∃ a, (if x.nullish = true then some [] else toStr x) = some a)
          ↔ ∃ s, toStr x = some s := by
        cases x <;>
          first
          | exact Iff.rfl
          | exact ⟨fun _ => ⟨_, rfl⟩, fun _ => ⟨_, rfl⟩⟩
      rw [← hx]
      cases (if x.nullish = true then some [] else toStr x) <;> cases joinComma xs <;> simp
end

theorem convertible_coalesce_text (v : JVal) (d : Text) :
    convertible (coalesce v (JVal.str d)) = convertible v := by
  cases v <;> rfl

theorem mapM_join_isSome_iff (f : JVal → Option Text) :
    ∀ xs : List JVal, (∃ m, (xs.mapM f).map joinAll = some m) ↔ ∀ x ∈ xs, ∃ y, f x = some y
  | [] => ⟨fun _ x hx => (by cases hx), fun _ => ⟨_, rfl⟩⟩
  | x :: xs => by
      have ih := mapM_join_isSome_iff f xs
      simp only [List.mapM_cons, List.forall_mem_cons, ← ih]
      cases f x <;> cases xs.mapM f <;> simp

theorem commentHtml_isSome_iff (c : JVal) :
    (∃ f, commentHtml c = some f) ↔
      (convertible (commentAuthor c) = true ∧ convertible (commentStamp c) = true
        ∧ convertible (commentBody c) = true) := by
  rw [← toStr_isSome_iff, ← toStr_isSome_iff, ← toStr_isSome_iff]
  unfold commentHtml
  cases toStr (commentAuthor c) <;> cases toStr (commentStamp c)
    <;> cases toStr (commentBody c) <;> simp

theorem itemHtml_isSome_iff (item : JVal) :
    (∃ f, itemHtml item = some f) ↔ convertible (itemLabel item) = true := by
  rw [← toStr_isSome_iff]
  unfold itemHtml
  cases toStr (itemLabel item) <;> simp

theorem itemsMarkup_isSome_iff (cl : JVal) :
    (∃ m, itemsMarkup cl = some m) ↔
      (arrayOrAbsent (optGet cl "items".toList) = true
        ∧ ∀ item ∈ itemsOf cl, convertible (itemLabel item) = true) := by
  unfold itemsMarkup itemsOf
  cases hv : optGet cl "items".toList with
  | arr items =>
      simp only [coalesce, JVal.nullish, arrayOrAbsent, true_and, Bool.false_eq_true, if_false]
      unfold itemsJoin
      rw [mapM_join_isSome_iff]
      exact forall₂_congr (fun item _ => itemHtml_isSome_iff item)
  | undefined =>
      exact ⟨fun _ => ⟨rfl, fun item hi => by cases hi⟩, fun _ => ⟨_, rfl⟩⟩
  | null =>
      exact ⟨fun _ => ⟨rfl, fun item hi => by cases hi⟩, fun _ => ⟨_, rfl⟩⟩
  | bool b => simp [coalesce, JVal.nullish, arrayOrAbsent]
  | num n => simp [coalesce, JVal.nullish, arrayOrAbsent]
  | str s => simp [coalesce, JVal.nullish, arrayOrAbsent]
  | obj qs => simp [coalesce, JVal.nullish, arrayOrAbsent]

theorem checklistHtml_isSome_iff (cl : JVal) :
    (∃ f, checklistHtml cl = some f) ↔
      (arrayOrAbsent (optGet cl "items".toList) = true
        ∧ convertible (checklistHeading cl) = true
        ∧ ∀ item ∈ itemsOf cl, convertible (itemLabel item) = true) := by
  have hi := itemsMarkup_isSome_iff cl
  have hh := toStr_isSome_iff (checklistHeading cl)
  unfold checklistHtml
  cases h1 : itemsMarkup cl with
  | none =>
      rw [h1] at hi
      simp only [Option.bind_eq_bind, Option.none_bind]
      constructor
      · rintro ⟨f, hf⟩; cases hf
      · rintro ⟨ha, _, hall⟩
        obtain ⟨m, hm⟩ := hi.mpr ⟨ha, hall⟩
        cases hm
  | some m =>
      rw [h1] at hi
      have hi2 := hi.mp ⟨m, rfl⟩
      cases h2 : toStr (checklistHeading cl) with
      | none =>
          rw [h2] at hh
          simp only [Option.bind_eq_bind, Option.some_bind, Option.none_bind]
          constructor
          · rintro ⟨f, hf⟩; cases hf
          · rintro ⟨_, hc, _⟩
            obtain ⟨s, hs⟩ := hh.mpr hc
            cases hs
      | some hd =>
          rw [h2] at hh
          simp only [Option.bind_eq_bind, Option.some_bind]
          exact ⟨fun _ => ⟨hi2.1, hh.mp ⟨hd, rfl⟩, hi2.2⟩, fun _ => ⟨_, rfl⟩⟩

theorem coalesce_text_eq_str_iff (v : JVal) :
    (∃ d, coalesce v (JVal.str []) = JVal.str d) ↔ textOrAbsent v = true := by
  cases v <;> simp [coalesce, JVal.nullish, textOrAbsent]

theorem toStr_coalesce_isSome_iff (v : JVal) :
    (∃ t, toStr (coalesce v (JVal.str [])) = some t) ↔ convertible v = true := by
  rw [toStr_isSome_iff, convertible_coalesce_text]

/-- C4 (counterexample): a card whose description is a number, a checklist whose
`items` is a string, and a card whose title is a mapping with an own `toString`
entry each make `buildHtml` throw. -/
theorem buildHtml_raises_on_malformed :
    buildHtml (JVal.obj [("description".toList, JVal.num ⟨false, "5".toList⟩)]) [] [] = none
    ∧ buildHtml (JVal.obj []) [] [JVal.obj [("items".toList, JVal.str "abc".toList)]] = none
    ∧ buildHtml (JVal.obj [("title".toList,
        JVal.obj [("toString".toList, JVal.num ⟨false, "1".toList⟩)])]) [] [] = none := by
  decide

/-- C4 (amended): for every card mapping, every sequence of comment records and
every sequence of checklist records, `buildHtml` returns a document and does
not throw exactly when the card's description is missing, `null` or text, the
`items` of every checklist is missing, `null` or a sequence, and each value it
converts to text (the card's title, status and completion date, each comment's
author name, timestamp and body, each checklist's heading and each item's
label) converts, that is, is not a mapping with an own `toString` entry nor a
sequence holding one.  Empty mappings are rendered with the defaults. -/
theorem buildHtml_total :
    (∀ (ps : List (Text × JVal)) (comments checklists : List JVal),
        (∃ doc, buildHtml (JVal.obj ps) comments checklists = some doc) ↔
          (textOrAbsent (getProp (JVal.obj ps) "description".toList) = true
            ∧ convertible (getProp (JVal.obj ps) "title".toList) = true
            ∧ convertible (getProp (JVal.obj ps) "status".toList) = true
            ∧ convertible (optGet (getProp (JVal.obj ps) "endDates".toList)
                "actual".toList) = true
            ∧ (∀ c ∈ comments, convertible (commentAuthor c) = true
                ∧ convertible (commentStamp c) = true
                ∧ convertible (commentBody c) = true)
            ∧ (∀ cl ∈ checklists, arrayOrAbsent (optGet cl "items".toList) = true
                ∧ convertible (checklistHeading cl) = true
                ∧ ∀ item ∈ itemsOf cl, convertible (itemLabel item) = true)))
    ∧ buildHtml (JVal.obj []) [JVal.obj []] [JVal.obj []]
        = some (pageTop [] [] [] notFound []
            ++ commentsSection 1 "<p><strong>(unknown)</strong> — <br/></p>".toList
            ++ "\n\n  ".toList ++ checklistsSection 1 "<h3></h3>".toList
            ++ "\n</body>\n</html>".toList) := by
  refine ⟨?_, rfl⟩
  intro ps comments checklists
  have hA : (∃ cm, commentsMarkup comments = some cm) ↔
      ∀ c ∈ comments, convertible (commentAuthor c) = true
        ∧ convertible (commentStamp c) = true ∧ convertible (commentBody c) = true := by
    unfold commentsMarkup
    rw [mapM_join_isSome_iff]
    exact forall₂_congr (fun c _ => commentHtml_isSome_iff c)
  have hB : (∃ clm, checklistsMarkup checklists = some clm) ↔
      ∀ cl ∈ checklists, arrayOrAbsent (optGet cl "items".toList) = true
        ∧ convertible (checklistHeading cl) = true
        ∧ ∀ item ∈ itemsOf cl, convertible (itemLabel item) = true := by
    unfold checklistsMarkup
    rw [mapM_join_isSome_iff]
    exact forall₂_congr (fun cl _ => checklistHtml_isSome_iff cl)
  rw [← hA, ← hB, ← coalesce_text_eq_str_iff, ← toStr_coalesce_isSome_iff,
    ← toStr_coalesce_isSome_iff, ← toStr_coalesce_isSome_iff]
  unfold buildHtml
  cases commentsMarkup comments with
  | none => simp
  | some cm =>
    cases checklistsMarkup checklists with
    | none => simp
    | some clm =>
      simp only [Option.bind_eq_bind, Option.some_bind, JVal.nullish, Bool.false_eq_true,
        if_false]
      cases hd : coalesce (getProp (JVal.obj ps) "description".toList) (JVal.str []) with
      | str d =>
          simp only []
          cases toStr (coalesce (getProp (JVal.obj ps) "title".toList) (JVal.str []))
            <;> cases toStr (coalesce (getProp (JVal.obj ps) "status".toList) (JVal.str []))
            <;> cases toStr (coalesce (optGet (getProp (JVal.obj ps) "endDates".toList)
                  "actual".toList) (JVal.str []))
            <;> simp
      | undefined => simp
      | null => simp
      | bool b => simp
      | num n => simp
      | arr xs => simp
      | obj qs => simp

/-- Witness for C4: a card without description whose title is a mapping that
holds a `toString` entry one level down, a comment with an own `toString` entry
next to its numeric body, and a checklist without items: none of the values
converted to text has an own `toString` entry, and the document is returned. -/
theorem buildHtml_total_witness :
    ∃ doc, buildHtml
      (JVal.obj [("title".toList,
        JVal.obj [("a".toList, JVal.obj [("toString".toList, JVal.null)])])])
      [JVal.obj [("toString".toList, JVal.num ⟨false, "1".toList⟩),
        ("content".toList, JVal.num ⟨false, "7".toList⟩)]]
      [JVal.obj [("name".toList, JVal.str "C".toList)]] = some doc :=
  (buildHtml_total.1
      [("title".toList, JVal.obj [("a".toList, JVal.obj [("toString".toList, JVal.null)])])]
      [JVal.obj [("toString".toList, JVal.num ⟨false, "1".toList⟩),
        ("content".toList, JVal.num ⟨false, "7".toList⟩)]]
      [JVal.obj [("name".toList, JVal.str "C".toList)]]).mpr (by decide)

end TrelloPOC
